import Mathlib

/-!
Verification of the Wattly bill-audit engine.

This file gives a shallow embedding, in Lean 4, of the heuristic
bill-text extraction engine and savings calculator found in
src/server.js (the authoritative variant), together with the usage
slice of the appended parseBillText variant. JavaScript numbers are
modelled by exact rationals plus an explicit NaN constructor where the
code can produce NaN; regular-expression matching is modelled by
deterministic character-list matchers. For each regex of the source
the matcher implements the leftmost-match semantics of the JS engine;
wherever the regex engine would backtrack, the pattern shape makes the
backtracking attempts fail (every quantified piece is followed by a
token that its own alphabet cannot satisfy), so the greedy, cut-free
matchers used here compute exactly the JS match. Such determinization
arguments are recorded in comments at the relevant definitions.
-/

namespace Wattly

/-- Whitespace class modelling the JS regex class backslash-s
(ASCII subset; the source texts use only these). Also used for the
JS String.trim behaviour. -/
def isWS (c : Char) : Bool :=
  c == ' ' || c == '\t' || c == '\r' || c == '\n' || c == '\x0b' || c == '\x0c'

/-- JS regex word character (for word-boundary tests): ASCII letters,
digits and underscore. -/
def isWordChar (c : Char) : Bool :=
  c.isAlphanum || c == '_'

/-- Lowercased character list of a string, for case-insensitive matching. -/
def lowerStr (s : String) : List Char := s.toList.map Char.toLower

/-- Numeric value of a digit list (most significant first). -/
def digitsToNat (ds : List Char) : Nat :=
  ds.foldl (fun n c => 10 * n + (c.toNat - '0'.toNat)) 0

/-- Split a character list at the maximal leading digit run. -/
def digitSpan (cs : List Char) : List Char × List Char :=
  (cs.takeWhile Char.isDigit, cs.dropWhile Char.isDigit)

/-- Greedy consumption of the regex piece (?:,[0-9]\x7b3\x7d)* :
repeatedly consume a comma followed by exactly three digits, returning
the collected digits and the rest. When a repetition fails the JS
engine would try fewer repetitions, but each abandoned repetition
leaves the scan on a comma, which can never satisfy the following dot
token, so the greedy count is the only one that can succeed. -/
def commaGroups : List Char → List Char × List Char
  | c0 :: a :: b :: c :: rest =>
    if c0 == ',' && a.isDigit && b.isDigit && c.isDigit then
      let (ds, r) := commaGroups rest
      (a :: b :: c :: ds, r)
    else ([], c0 :: a :: b :: c :: rest)
  | cs => ([], cs)

/-- The regex piece backslash-dot followed by exactly two digits.
Returns the two decimal digits and the rest. -/
def dotDD : List Char → Option (Char × Char × List Char)
  | c0 :: a :: b :: rest =>
    if c0 == '.' && a.isDigit && b.isDigit then some (a, b, rest) else none
  | _ => none

/-- Rational value of an amount match: integer digits and two decimal
digits, i.e. the value parseFloat returns on the capture with commas
removed. -/
def amountVal (intDigits : List Char) (d1 d2 : Char) : ℚ :=
  (digitsToNat intDigits * 100 + (d1.toNat - '0'.toNat) * 10 + (d2.toNat - '0'.toNat) : ℚ) / 100

/-- First alternative of the currency capture group:
[0-9]\x7b1,3\x7d(?:,[0-9]\x7b3\x7d)*(?:[.][0-9]\x7b2\x7d). The 1-3
leading digits must be the whole maximal digit run: had the engine
taken fewer digits, the next character would be a digit, which fails
both the comma token and the dot token, so all backtracks fail. -/
def alt1 (cs : List Char) : Option (ℚ × List Char) :=
  let (run, r1) := digitSpan cs
  if 1 ≤ run.length ∧ run.length ≤ 3 then
    let (gds, r2) := commaGroups r1
    match dotDD r2 with
    | some (a, b, r3) => some (amountVal (run ++ gds) a b, r3)
    | none => none
  else none

/-- Second alternative of the currency capture group:
[0-9]+(?:[.][0-9]\x7b2\x7d). Again only the maximal digit run can
succeed, since a shorter run is followed by a digit, not a dot. -/
def alt2 (cs : List Char) : Option (ℚ × List Char) :=
  let (run, r1) := digitSpan cs
  if 1 ≤ run.length then
    match dotDD r1 with
    | some (a, b, r3) => some (amountVal run a b, r3)
    | none => none
  else none

/-- The currency capture group of findMoney, alternation tried in
source order. Returns the numeric value of the capture and the unread
rest of the input. -/
def numberAlt (cs : List Char) : Option (ℚ × List Char) :=
  match alt1 cs with
  | some r => some r
  | none => alt2 cs

/-- Full findMoney currency pattern anchored at the head of the list:
an optional dollar sign, then any whitespace, then the capture group.
If the dollar branch fails after the sign, retrying without the sign
puts the scan on the dollar sign itself, which satisfies neither the
whitespace star nor a digit, so stripping the sign first is exact;
similarly backtracking the whitespace star lands on a whitespace
character, which is not a digit, so the maximal skip is exact.
Returns the numeric value of the capture (the value parseFloat
extracts) and the rest of the input after the full match. -/
def matchMoneyAtFull (cs : List Char) : Option (ℚ × List Char) :=
  let cs1 := match cs with
    | c :: r => if c == '$' then r else c :: r
    | [] => []
  numberAlt (cs1.dropWhile isWS)

/-- JS String.trim on a character list. -/
def trimChars (cs : List Char) : List Char :=
  ((cs.dropWhile isWS).reverse.dropWhile isWS).reverse

/-- Split on newline characters. Together with the subsequent trim
this models the source split on the regex backslash-r?backslash-n,
since a carriage return left at the end of a piece is removed by the
trim. -/
def splitNl : List Char → List (List Char)
  | [] => [[]]
  | c :: rest =>
    if c == '\n' then [] :: splitNl rest
    else
      match splitNl rest with
      | [] => [[c]]
      | l :: ls => (c :: l) :: ls

/-- The trimmed, non-blank lines of a document, as in findMoney. -/
def linesOf (cs : List Char) : List (List Char) :=
  ((splitNl cs).map trimChars).filter (fun l => l ≠ [])

/-- needle occurs as a contiguous segment of hay. -/
def containsSeg (needle hay : List Char) : Bool :=
  hay.tails.any (fun t => needle.isPrefixOf t)

/-- Case-insensitive label test: the label regex of findMoney is the
alternation of the literal label phrases with the i flag, so a line
matches exactly when some label phrase occurs in it ignoring case. -/
def labelHit (labels : List String) (line : List Char) : Bool :=
  labels.any (fun lab => containsSeg (lowerStr lab) (line.map Char.toLower))

/-- First position of a line (leftmost match) where the currency
pattern matches; the value of its capture. Models line.match(re). -/
def findFirstAmount (cs : List Char) : Option ℚ :=
  cs.tails.findSome? (fun t => (matchMoneyAtFull t).map Prod.fst)

/-- First amount found in a window of lines, scanning lines in order
and within each line taking the leftmost match. -/
def firstAmountInLines (ls : List (List Char)) : Option ℚ :=
  ls.findSome? findFirstAmount

/-- The label-proximity loop of findMoney: scan lines top to bottom;
at each line matching a label, search the window of up to three lines
starting there for an amount and return the first one; otherwise keep
scanning. -/
def searchLines (labels : List String) : List (List Char) → Option ℚ
  | [] => none
  | l :: rest =>
    if labelHit labels l then
      match firstAmountInLines ((l :: rest).take 3) with
      | some v => some v
      | none => searchLines labels rest
    else searchLines labels rest

/-- Global scan of the currency pattern (text.match(re) with the g
flag): repeatedly take the leftmost match and continue after its end.
The fuel argument is always called with the input length; every match
consumes at least one character (in fact at least four), so the fuel
can never run out before the input does. -/
def scanAmountsGo : Nat → List Char → List ℚ
  | 0, _ => []
  | _ + 1, [] => []
  | fuel + 1, c :: rest =>
    match matchMoneyAtFull (c :: rest) with
    | some (v, restAfter) => v :: scanAmountsGo fuel restAfter
    | none => scanAmountsGo fuel rest

/-- All values found by the global currency scan of the document. -/
def scanAmounts (cs : List Char) : List ℚ :=
  scanAmountsGo cs.length cs

/-- Maximum of a list of values, none when empty (the fallback
accumulator of findMoney). -/
def maxAmount (l : List ℚ) : Option ℚ :=
  l.foldl (fun acc v =>
    match acc with
    | none => some v
    | some m => some (max m v)) none

/-- findMoney from src/server.js: label-proximity search over trimmed
non-blank lines, falling back to the maximum over the global currency
scan of the whole text. -/
def findMoney (text : String) (labels : List String) : Option ℚ :=
  let lines := linesOf text.toList
  let viaLabels := if labels.isEmpty then none else searchLines labels lines
  match viaLabels with
  | some v => some v
  | none => maxAmount (scanAmounts text.toList)

/-- Case-insensitive literal match at the head of the input (the
literal is given lowercased); returns the unread rest. -/
def matchCI : List Char → List Char → Option (List Char)
  | [], cs => some cs
  | _, [] => none
  | l :: ls, c :: cs => if c.toLower == l then matchCI ls cs else none

/-- Case-sensitive literal match at the head of the input. -/
def matchLit : List Char → List Char → Option (List Char)
  | [], cs => some cs
  | _, [] => none
  | l :: ls, c :: cs => if c == l then matchLit ls cs else none

/-- The regex piece backslash-s+ : at least one whitespace character,
consumed greedily. Backtracking to fewer characters leaves the scan
on whitespace, which none of the following literal tokens accept, so
the maximal skip is exact. -/
def wsPlus : List Char → Option (List Char)
  | c :: rest => if isWS c then some (rest.dropWhile isWS) else none
  | [] => none

/-- No word character follows: the word-boundary test after a word
character. -/
def boundaryAfter : List Char → Bool
  | [] => true
  | c :: _ => !isWordChar c

/-- The previous character is absent or not a word character: the
word-boundary test before a word character. -/
def boundaryBefore : Option Char → Bool
  | none => true
  | some c => !isWordChar c

/-- Leftmost-match scan: try the head matcher at every position of
the input, left to right. Models re.exec / text.match without flags. -/
def scanFor {α : Type} (f : List Char → Option α) (cs : List Char) : Option α :=
  cs.tails.findSome? f

/-- Leftmost-match scan that also supplies the character preceding
the current position, for patterns with a leading word-boundary. -/
def scanForP {α : Type} (f : Option Char → List Char → Option α) :
    Option Char → List Char → Option α
  | prev, [] => f prev []
  | prev, c :: rest =>
    match f prev (c :: rest) with
    | some v => some v
    | none => scanForP f (some c) rest

/-- parseUsage pattern (backslash-d\x7b2,7\x7d)backslash-s*kWh
backslash-b anchored at the head. Only the maximal digit run can
match the counted group: with fewer digits the next character is a
digit, failing both the whitespace star and the literal k. -/
def kwhAt (cs : List Char) : Option Nat :=
  let (run, r1) := digitSpan cs
  if 2 ≤ run.length ∧ run.length ≤ 7 then
    match matchCI (lowerStr "kwh") (r1.dropWhile isWS) with
    | some r2 => if boundaryAfter r2 then some (digitsToNat run) else none
    | none => none
  else none

/-- parseUsage pattern Total usage in ccf followed by a captured
digit run, anchored at the head. -/
def ccf1At (cs : List Char) : Option Nat :=
  (matchCI (lowerStr "total") cs).bind fun r1 =>
  (wsPlus r1).bind fun r2 =>
  (matchCI (lowerStr "usage") r2).bind fun r3 =>
  (wsPlus r3).bind fun r4 =>
  (matchCI (lowerStr "in") r4).bind fun r5 =>
  (wsPlus r5).bind fun r6 =>
  (matchCI (lowerStr "ccf") r6).bind fun r7 =>
  (wsPlus r7).bind fun r8 =>
    let (run, _) := digitSpan r8
    if 1 ≤ run.length then some (digitsToNat run) else none

/-- parseUsage pattern backslash-b(backslash-d\x7b2,6\x7d)
backslash-s*ccf backslash-b anchored at the head, with the preceding
character supplied for the leading word-boundary. -/
def ccf2At (prev : Option Char) (cs : List Char) : Option Nat :=
  if boundaryBefore prev then
    let (run, r1) := digitSpan cs
    if 2 ≤ run.length ∧ run.length ≤ 6 then
      match matchCI (lowerStr "ccf") (r1.dropWhile isWS) with
      | some r2 => if boundaryAfter r2 then some (digitsToNat run) else none
      | none => none
    else none
  else none

/-- parseUsage pattern Total Gas Use (backslash-d+)backslash-s*
therms? anchored at the head; the optional plural s does not affect
the capture. -/
def therms1At (cs : List Char) : Option Nat :=
  (matchCI (lowerStr "total") cs).bind fun r1 =>
  (wsPlus r1).bind fun r2 =>
  (matchCI (lowerStr "gas") r2).bind fun r3 =>
  (wsPlus r3).bind fun r4 =>
  (matchCI (lowerStr "use") r4).bind fun r5 =>
  (wsPlus r5).bind fun r6 =>
    let (run, r7) := digitSpan r6
    if 1 ≤ run.length then
      (matchCI (lowerStr "therm") (r7.dropWhile isWS)).map fun _ => digitsToNat run
    else none

/-- parseUsage pattern Usage backslash-s*[:-]?backslash-s*
(backslash-d+)backslash-s*therms? anchored at the head. -/
def therms2At (cs : List Char) : Option Nat :=
  (matchCI (lowerStr "usage") cs).bind fun r1 =>
    let r2 := r1.dropWhile isWS
    let r3 := match r2 with
      | c :: rest => if c == ':' || c == '-' then rest else c :: rest
      | [] => []
    let r4 := r3.dropWhile isWS
    let (run, r5) := digitSpan r4
    if 1 ≤ run.length then
      (matchCI (lowerStr "therm") (r5.dropWhile isWS)).map fun _ => digitsToNat run
    else none

/-- The usage record of a bill audit; all fields are parseInt results
or null. -/
structure Usage where
  gas_therms : Option Nat
  gas_ccf : Option Nat
  electricity_kwh : Option Nat
deriving DecidableEq

/-- parseUsage from src/server.js: three independent unit-specific
extractions, each an ordered cascade of two patterns (kWh has one). -/
def parseUsage (text : String) : Usage :=
  let cs := text.toList
  let gasTherms :=
    match scanFor therms1At cs with
    | some v => some v
    | none => scanFor therms2At cs
  let gasCcf :=
    match scanFor ccf1At cs with
    | some v => some v
    | none => scanForP ccf2At none cs
  let kwh := scanFor kwhAt cs
  { gas_therms := gasTherms, gas_ccf := gasCcf, electricity_kwh := kwh }

/-- A JavaScript number as the savings path can produce it: an exact
rational, or NaN. (Double rounding and overflow are not modelled; the
values the savings path manipulates are exact decimals.) -/
inductive JsNum where
  | num (q : ℚ)
  | nan
deriving DecidableEq

/-- JS truthiness of a number: false for 0 and NaN. -/
def jsTruthy : JsNum → Bool
  | .num q => decide (q ≠ 0)
  | .nan => false

/-- JS truthiness of a nullable rational (null, 0 falsy). -/
def optTruthy : Option ℚ → Bool
  | none => false
  | some q => decide (q ≠ 0)

/-- JS expression x || 0 for a nullable number x. -/
def jsOrZero : Option JsNum → JsNum
  | none => .num 0
  | some v => if jsTruthy v then v else .num 0

/-- JS subtraction with NaN propagation. -/
def jsSub : JsNum → JsNum → JsNum
  | .num a, .num b => .num (a - b)
  | _, _ => .nan

/-- JS multiplication by an ordinary number, with NaN propagation. -/
def jsMul : JsNum → ℚ → JsNum
  | .num a, q => .num (a * q)
  | .nan, _ => .nan

/-- The object buildSavings returns. The two branches of the source
return objects of different shapes; unitNull records the shape: true
for the insufficient-data branch, whose object carries the field
unit with value null, false for the computed branch, whose object has
no unit field at all. -/
structure SavingsResult where
  unitNull : Bool
  monthlyQty : Option ℚ
  currentRate : JsNum
  offerRate : JsNum
  monthlySavings : Option JsNum
  annualSavings : Option JsNum
  term2 : Option JsNum
  term3 : Option JsNum
  term4 : Option JsNum
  term5 : Option JsNum
deriving DecidableEq

/-- buildSavings from src/server.js. The guard is the JS test
qty && currentRate != null && offerRate != null: qty must be truthy
(non-null and nonzero) while the two rates only need to be non-null,
so NaN rates pass the guard. In the insufficient branch the source
returns monthlyQty: qty || null and rate fields coerced by || 0. -/
def buildSavings (qty : Option ℚ) (currentRate offerRate : Option JsNum) : SavingsResult :=
  if optTruthy qty && currentRate.isSome && offerRate.isSome then
    let q := qty.getD 0
    let c := currentRate.getD .nan
    let o := offerRate.getD .nan
    let monthly := jsMul (jsSub c o) q
    let annual := jsMul monthly 12
    { unitNull := false
      monthlyQty := qty
      currentRate := c
      offerRate := o
      monthlySavings := some monthly
      annualSavings := some annual
      term2 := some (jsMul annual 2)
      term3 := some (jsMul annual 3)
      term4 := some (jsMul annual 4)
      term5 := some (jsMul annual 5) }
  else
    { unitNull := true
      monthlyQty := if optTruthy qty then qty else none
      currentRate := jsOrZero currentRate
      offerRate := jsOrZero offerRate
      monthlySavings := none
      annualSavings := none
      term2 := none
      term3 := none
      term4 := none
      term5 := none }

/-- The totals record of a bill audit (findMoney results). -/
structure Totals where
  total_due : Option ℚ
  delivery_charges : Option ℚ
  supply_charges : Option ℚ
  taxes : Option ℚ
deriving DecidableEq

/-- The billing period; the source fields are called start and end,
renamed here because end is a Lean keyword. Dates are kept as the raw
matched substrings. -/
structure BillingPeriod where
  startDate : Option String
  endDate : Option String
deriving DecidableEq

/-- The BillAudit record auditFromText assembles. meta_parsed_at
models the impure new Date().toISOString() read: the clock value is
passed in explicitly. -/
structure BillAudit where
  utility : String
  account_number : Option String
  billing_period : BillingPeriod
  totals : Totals
  usage : Usage
  meta_parsed_at : String
  meta_confidence : String
  notes : String
deriving DecidableEq

/-- inferMonthlyQtyAndUnit from src/server.js: fixed preference order
kWh, then therms, then ccf; the tests are != null, so a zero quantity
is still selected. -/
def inferMonthlyQtyAndUnit (a : BillAudit) : Option Nat × Option String :=
  match a.usage.electricity_kwh with
  | some q => (some q, some "kWh")
  | none =>
    match a.usage.gas_therms with
    | some q => (some q, some "therms")
    | none =>
      match a.usage.gas_ccf with
      | some q => (some q, some "ccf")
      | none => (none, none)

/-- inferCurrentRate from src/server.js. The source guard is the JS
truthiness test qty && supply, so zero values fail it; the subsequent
isFinite check always passes because qty is then nonzero, which the
conditional here records directly. -/
def inferCurrentRate (a : BillAudit) : Option ℚ :=
  match (inferMonthlyQtyAndUnit a).1, a.totals.supply_charges with
  | some qty, some supply =>
    if qty ≠ 0 ∧ supply ≠ 0 then some (supply / (qty : ℚ)) else none
  | _, _ => none

/-- The sanitization the proposal route applies to a rate override:
String(v).replace with the class of everything except digits and
dots deleted. -/
def sanitizeRate (s : String) : List Char :=
  s.toList.filter (fun c => c.isDigit || c == '.')

/-- JS Number() on a string of digits and dots: empty gives 0, a
well-formed numeral gives its value, anything else (two or more dots,
or a lone dot) gives NaN. -/
def jsNumberOfSanitized (cs : List Char) : JsNum :=
  if cs.isEmpty then .num 0
  else
    let dots := cs.count '.'
    if dots == 0 then .num (digitsToNat cs)
    else if dots == 1 then
      let ip := cs.takeWhile (fun c => c ≠ '.')
      let fp := (cs.dropWhile (fun c => c ≠ '.')).tail
      if ip.isEmpty && fp.isEmpty then .nan
      else .num ((digitsToNat ip : ℚ) + (digitsToNat fp : ℚ) / (10 ^ fp.length : ℚ))
    else .nan

/-- The proposal route's handling of a rate override field (null or
empty string means absent, anything else is sanitized and coerced
with Number). -/
def parseRateOverride (body : Option String) : Option JsNum :=
  match body with
  | none => none
  | some s => if s = "" then none else some (jsNumberOfSanitized (sanitizeRate s))

/-- The proposal route's current rate: the caller override if it is
non-null after parsing (the test is == null, which NaN passes, so a
NaN override is kept), otherwise the inferred effective rate. -/
def routeCurrentRate (body : Option String) (a : BillAudit) : Option JsNum :=
  match parseRateOverride body with
  | some v => some v
  | none => (inferCurrentRate a).map JsNum.num

/-- The con ed(ison)? alias test of guessUtility: con, optional
whitespace, ed; the optional ison does not affect the test. -/
def conEdTest (cs : List Char) : Bool :=
  cs.tails.any fun t =>
    match matchCI (lowerStr "con") t with
    | some r => (matchCI (lowerStr "ed") (r.dropWhile isWS)).isSome
    | none => false

/-- The southern california edison or sce alias test. -/
def sceTest (cs : List Char) : Bool :=
  cs.tails.any fun t =>
    (matchCI (lowerStr "southern california edison") t).isSome
      || (matchCI (lowerStr "sce") t).isSome

/-- The pge with trailing word boundary, or pacific gas, alias test. -/
def pgeTest (cs : List Char) : Bool :=
  cs.tails.any fun t =>
    (match matchCI (lowerStr "pge") t with
      | some r => boundaryAfter r
      | none => false)
      || (matchCI (lowerStr "pacific gas") t).isSome

/-- The national grid alias test. -/
def natGridTest (cs : List Char) : Bool :=
  cs.tails.any fun t => (matchCI (lowerStr "national grid") t).isSome

/-- The duke energy alias test. -/
def dukeTest (cs : List Char) : Bool :=
  cs.tails.any fun t => (matchCI (lowerStr "duke energy") t).isSome

/-- The sdge or san diego gas alias test. -/
def sdgeTest (cs : List Char) : Bool :=
  cs.tails.any fun t =>
    (matchCI (lowerStr "sdge") t).isSome
      || (matchCI (lowerStr "san diego gas") t).isSome

/-- Character class of the structural header fallback: ASCII letters,
ampersand, dot and whitespace (the JS class includes backslash-s, so
the body may span whitespace and even newlines). -/
def isClassChar (c : Char) : Bool :=
  c.isAlpha || c == '&' || c == '.' || isWS c

/-- One attempt of the header fallback with a fixed body length k:
after the k class characters there must be at least one whitespace
and then the literal Bill, Invoice or Statement (case sensitive, in
source order). Returns the capture: the first character plus the k
body characters. -/
def headerAttempt (first : Char) (body : List Char) (k : Nat) : Option (List Char) :=
  (wsPlus (body.drop k)).bind fun r2 =>
    if (matchLit ("Bill".toList) r2).isSome
        || (matchLit ("Invoice".toList) r2).isSome
        || (matchLit ("Statement".toList) r2).isSome then
      some (first :: body.take k)
    else none

/-- Greedy counted repetition of the header body: lengths are tried
from the maximum down to 3, as the JS engine backtracks a greedy
counted group. -/
def headerTryK (first : Char) (body : List Char) : Nat → Option (List Char)
  | 0 => none
  | 1 => none
  | 2 => none
  | k + 3 =>
    match headerAttempt first body (k + 3) with
    | some cap => some cap
    | none => headerTryK first body (k + 2)

/-- The header fallback pattern anchored at the head: an uppercase
letter, 3 to 40 class characters (greedy, bounded by the maximal
class run), whitespace, then Bill, Invoice or Statement. The capture
is trimmed as firstMatch does. -/
def headerAt (cs : List Char) : Option String :=
  match cs with
  | c :: rest =>
    if c.isUpper then
      let maxRun := (rest.takeWhile isClassChar).length
      match headerTryK c rest (min 40 maxRun) with
      | some cap => some (String.mk (trimChars cap))
      | none => none
    else none
  | [] => none

/-- The multiline anchor of the header fallback: the pattern may only
start at the beginning of the text or right after a line terminator. -/
def headerLineStart (prev : Option Char) (cs : List Char) : Option String :=
  match prev with
  | none => headerAt cs
  | some c => if c == '\n' || c == '\r' then headerAt cs else none

/-- Leftmost match of the header fallback over the whole text. -/
def headerFirst (cs : List Char) : Option String :=
  scanForP headerLineStart none cs

/-- guessUtility from src/server.js: fixed alias tests in source
order, then the structural header fallback, then the sentinel. -/
def guessUtility (text : String) : String :=
  let cs := text.toList
  if conEdTest cs then "Con Edison"
  else if sceTest cs then "SCE"
  else if pgeTest cs then "PG&E"
  else if natGridTest cs then "National Grid"
  else if dukeTest cs then "Duke Energy"
  else if sdgeTest cs then "SDG&E"
  else
    match headerFirst cs with
    | some name => name
    | none => "Unknown Utility"

/-- Digit or dash, the account number class. -/
def isAcctChar (c : Char) : Bool :=
  c.isDigit || c == '-'

/-- Shared tail of both account patterns: the class [:backslash-s]*
then at least six digits or dashes (a shorter run cannot succeed by
backtracking, since the pattern ends right after the counted class). -/
def acctDigits (r3 : List Char) : Option String :=
  let r4 := r3.dropWhile (fun c => c == ':' || isWS c)
  let run := r4.takeWhile isAcctChar
  if 6 ≤ run.length then some (String.mk run) else none

/-- First account pattern anchored at the head: Account, whitespace,
a hash sign or the word number, then the shared tail. -/
def acct1At (cs : List Char) : Option String :=
  (matchCI (lowerStr "account") cs).bind fun r1 =>
  (wsPlus r1).bind fun r2 =>
    (match r2 with
      | '#' :: rest => some rest
      | _ => matchCI (lowerStr "number") r2).bind acctDigits

/-- Continuation of the second account pattern after Acct or Acctount:
optional whitespace, a hash sign or no with an optional dot, then the
shared tail. The optional dot is consumed greedily; if it were left,
the following class would stop at it and the digit run would fail, so
greedy consumption is exact. -/
def acct2Cont (r : List Char) : Option String :=
  let r2 := r.dropWhile isWS
  (match r2 with
    | '#' :: rest => some rest
    | _ =>
      (matchCI (lowerStr "no") r2).map fun rest =>
        match rest with
        | '.' :: rr => rr
        | _ => rest).bind acctDigits

/-- Second account pattern anchored at the head: Acct with optional
ount (tried greedily first, retried without on failure, as the JS
engine backtracks an optional group). -/
def acct2At (cs : List Char) : Option String :=
  (matchCI (lowerStr "acct") cs).bind fun r1 =>
    match matchCI (lowerStr "ount") r1 with
    | some r1b =>
      match acct2Cont r1b with
      | some v => some v
      | none => acct2Cont r1
    | none => acct2Cont r1

/-- parseAccount from src/server.js: cascade of the two patterns. -/
def parseAccount (text : String) : Option String :=
  match scanFor acct1At text.toList with
  | some v => some v
  | none => scanFor acct2At text.toList

/-- A long-form date backslash-b[A-Za-z]\x7b3,9\x7d backslash-s+
backslash-d\x7b1,2\x7d, backslash-s* backslash-d\x7b4\x7d anchored at
the head, with the preceding character for the leading boundary.
Counted groups admit only the maximal runs (a shorter run is followed
by a character of its own class, which the next token rejects); the
year takes exactly four digits of a possibly longer run. Returns the
matched characters and the rest. -/
def monthDate (prev : Option Char) (cs : List Char) : Option (List Char × List Char) :=
  if boundaryBefore prev then
    let letters := cs.takeWhile Char.isAlpha
    if 3 ≤ letters.length ∧ letters.length ≤ 9 then
      let r1 := cs.drop letters.length
      (wsPlus r1).bind fun r2 =>
        let (dd, r3) := digitSpan r2
        if 1 ≤ dd.length ∧ dd.length ≤ 2 then
          match r3 with
          | ',' :: r4 =>
            let r5 := r4.dropWhile isWS
            if 4 ≤ (r5.takeWhile Char.isDigit).length then
              let rest := r5.drop 4
              some (cs.take (cs.length - rest.length), rest)
            else none
          | _ => none
        else none
    else none
  else none

/-- The date separator backslash-s*(?:to|-|en dash)backslash-s* of
parseDates. Returns the rest and the character preceding it (for the
boundary test of a following long-form date). -/
def dateSep (r1 : List Char) : Option (List Char × Char) :=
  let r2 := r1.dropWhile isWS
  let sep : Option (List Char × Char) :=
    match matchCI (lowerStr "to") r2 with
    | some r3 => some (r3, 'o')
    | none =>
      match r2 with
      | '-' :: r3 => some (r3, '-')
      | '–' :: r3 => some (r3, '–')
      | _ => none
  match sep with
  | some (r3, lastSep) =>
    let r4 := r3.dropWhile isWS
    some (r4, if r4.length < r3.length then ' ' else lastSep)
  | none => none

/-- Both long-form dates with their separator, anchored after the
lazy gap of the first parseDates pattern. -/
def m1Dates (prev : Char) (cs : List Char) : Option (String × String) :=
  (monthDate (some prev) cs).bind fun (cap1, r1) =>
  (dateSep r1).bind fun (r4, prev4) =>
  (monthDate (some prev4) r4).map fun (cap2, _) =>
    (String.mk cap1, String.mk cap2)

/-- The lazy dot-star gap of the first parseDates pattern: positions
are tried from the shortest gap upward and the gap cannot cross a
newline, since the dot does not match line terminators. The fuel is
the remaining length, so it never runs out before the input. -/
def m1Lazy : Char → List Char → Nat → Option (String × String)
  | prev, cs, fuel =>
    match m1Dates prev cs with
    | some pair => some pair
    | none =>
      match fuel, cs with
      | f + 1, c :: rest => if c == '\n' then none else m1Lazy c rest f
      | _, _ => none

/-- The first parseDates pattern anchored at the head: the literal
Billing period (case insensitive), a lazy gap, then two long-form
dates joined by a separator. The character preceding the gap start is
the final d of period. -/
def m1At (cs : List Char) : Option (String × String) :=
  (matchCI (lowerStr "billing period") cs).bind fun r0 =>
    m1Lazy 'd' r0 r0.length

/-- A numeric date: one or two digits, a slash or dash, one or two
digits, a slash or dash, then two to four digits, anchored at the
head. For the final date
of the pattern the year is at the end of the regex, so it takes up to
four digits of a longer run; for the first date a longer run makes
the match fail, as the separator token rejects a digit. -/
def numDate (cs : List Char) (final : Bool) : Option (List Char × List Char) :=
  let (d1, r1) := digitSpan cs
  if 1 ≤ d1.length ∧ d1.length ≤ 2 then
    match r1 with
    | c :: r2 =>
      if c == '/' || c == '-' then
        let (d2, r3) := digitSpan r2
        if 1 ≤ d2.length ∧ d2.length ≤ 2 then
          match r3 with
          | c2 :: r4 =>
            if c2 == '/' || c2 == '-' then
              let (d3, _) := digitSpan r4
              if 2 ≤ d3.length ∧ (final ∨ d3.length ≤ 4) then
                let rest := r4.drop (min 4 d3.length)
                some (cs.take (cs.length - rest.length), rest)
              else none
            else none
          | _ => none
        else none
      else none
    | [] => none
  else none

/-- The second parseDates pattern anchored at the head: two numeric
dates joined by a separator. -/
def m2At (cs : List Char) : Option (String × String) :=
  (numDate cs false).bind fun (cap1, r1) =>
  (dateSep r1).bind fun (r4, _) =>
  (numDate r4 true).map fun (cap2, _) =>
    (String.mk cap1, String.mk cap2)

/-- parseDates from src/server.js: the phrase-anchored long-form
pattern first, the bare numeric pattern second, both leftmost-match;
dates are kept as matched substrings. -/
def parseDates (text : String) : BillingPeriod :=
  match scanFor m1At text.toList with
  | some (s, e) => { startDate := some s, endDate := some e }
  | none =>
    match scanFor m2At text.toList with
    | some (s, e) => { startDate := some s, endDate := some e }
    | none => { startDate := none, endDate := none }

/-- auditFromText from src/server.js. The now argument models the
impure new Date().toISOString() read in the meta field; every other
field is computed from the input text alone. -/
def auditFromText (now : String) (text : String) : BillAudit :=
  { utility := guessUtility text
    account_number := parseAccount text
    billing_period := parseDates text
    totals :=
      { total_due := findMoney text
          ["Total amount due", "Amount due", "Current balance due", "Total due"]
        delivery_charges := findMoney text
          ["delivery charges", "distribution", "basic service charge"]
        supply_charges := findMoney text
          ["supply charges", "generation", "energy supply", "gas supply"]
        taxes := findMoney text ["sales tax", "tax", "grt"] }
    usage := parseUsage text
    meta_parsed_at := now
    meta_confidence := "low/heuristic"
    notes := "Heuristic parser. Add utility-specific patterns for higher accuracy." }

/-- Space-run collapsing of the parseBillText normalization: every
run of spaces and tabs becomes a single space. The flag records
whether the previous character belonged to a run. -/
def collapseGo : Bool → List Char → List Char
  | _, [] => []
  | inRun, c :: rest =>
    if c == ' ' || c == '\t' then
      (if inRun then [] else [' ']) ++ collapseGo true rest
    else c :: collapseGo false rest

/-- The replacement of space-star newline space-star by a bare
newline, scanning left to right as a global regex replace. The fuel
is the remaining length; every step consumes at least one character,
so it never runs out before the input. -/
def stripNlGo : Nat → List Char → List Char
  | 0, cs => cs
  | _ + 1, [] => []
  | fuel + 1, c :: rest =>
    let sp := (c :: rest).takeWhile (fun d => d == ' ')
    match (c :: rest).drop sp.length with
    | '\n' :: r2 => '\n' :: stripNlGo fuel (r2.dropWhile (fun d => d == ' '))
    | _ => c :: stripNlGo fuel rest

/-- The text normalization of parseBillText: carriage returns
deleted, space and tab runs collapsed to one space, no-break spaces
turned into spaces, and spaces around newlines removed, in source
order. -/
def normBill (cs : List Char) : List Char :=
  let a := cs.filter (fun c => c ≠ '\r')
  let b := collapseGo false a
  let c := b.map (fun ch => if ch == ' ' then ' ' else ch)
  stripNlGo c.length c

/-- Decimal capture backslash-d+(?:.backslash-d+)? anchored at the
head: a maximal digit run with an optional fraction, consumed
greedily. Declining a successful fraction cannot help a failing
continuation, since the scan would then stand on the dot, which the
patterns using this capture never accept. -/
def decNumAt (cs : List Char) : Option (ℚ × List Char) :=
  let (ip, r1) := digitSpan cs
  if 1 ≤ ip.length then
    match r1 with
    | '.' :: r2 =>
      let (fp, r3) := digitSpan r2
      if 1 ≤ fp.length then
        some ((digitsToNat ip : ℚ) + (digitsToNat fp : ℚ) / ((10 : ℚ) ^ fp.length), r3)
      else some ((digitsToNat ip : ℚ), '.' :: r2)
    | _ => some ((digitsToNat ip : ℚ), r1)
  else none

/-- parseBillText pattern Total usage in ccf followed by a decimal
capture, anchored at the head. -/
def ccfBAt (cs : List Char) : Option ℚ :=
  (matchCI (lowerStr "total usage in ccf") cs).bind fun r1 =>
  (wsPlus r1).bind fun r2 =>
  (decNumAt r2).map Prod.fst

/-- parseBillText pattern Therm conversion factor followed by a
decimal capture, anchored at the head. -/
def convBAt (cs : List Char) : Option ℚ :=
  (matchCI (lowerStr "therm conversion factor") cs).bind fun r1 =>
  (wsPlus r1).bind fun r2 =>
  (decNumAt r2).map Prod.fst

/-- Continuation of the parseBillText therms pattern after the
optional Gas: Use, whitespace, the decimal capture, optional
whitespace, then therm (the plural s is optional and irrelevant). -/
def thermsBCont (r : List Char) : Option ℚ :=
  (matchCI (lowerStr "use") r).bind fun r1 =>
  (wsPlus r1).bind fun r2 =>
  (decNumAt r2).bind fun (v, r3) =>
  (matchCI (lowerStr "therm") (r3.dropWhile isWS)).map fun _ => v

/-- parseBillText pattern Total (?:Gas )?Use ... therms? anchored at
the head; the optional Gas is tried greedily first and retried
without, as the JS engine backtracks an optional group. -/
def thermsBAt (cs : List Char) : Option ℚ :=
  (matchCI (lowerStr "total ") cs).bind fun r0 =>
    match matchCI (lowerStr "gas ") r0 with
    | some r0b =>
      match thermsBCont r0b with
      | some v => some v
      | none => thermsBCont r0
    | none => thermsBCont r0

/-- toFixed(2) modelled on exact rationals: round half up to a
hundredth (the values this path rounds are nonnegative). -/
def round2 (q : ℚ) : ℚ :=
  ((⌊q * 100 + 1 / 2⌋ : ℤ) : ℚ) / 100

/-- The three usage extractions of parseBillText on the normalized
text: ccf, conversion factor, and the directly matched therms. -/
def parseBillComponents (textRaw : String) : Option ℚ × Option ℚ × Option ℚ :=
  let text := normBill textRaw.toList
  (scanFor ccfBAt text, scanFor convBAt text, scanFor thermsBAt text)

/-- The therms value parseBillText reports: the direct extraction,
overridden by the rounded product ccf times conversion factor when
the direct value is falsy (null or zero) and both factors are truthy
(the source test is not-therms and ccf and conv). -/
def parseBillUsageTherms (textRaw : String) : Option ℚ :=
  let parts := parseBillComponents textRaw
  let ccf := parts.1
  let conv := parts.2.1
  let direct := parts.2.2
  if !optTruthy direct && optTruthy ccf && optTruthy conv then
    some (round2 (ccf.getD 0 * conv.getD 0))
  else direct

/-- A character list that is exactly a currency amount: the capture
group of findMoney matches it and consumes all of it. Any successful
parse of the group is the greedy one, so this test recognizes
precisely the amount-shaped strings. -/
def shapedValue (s : List Char) : Option ℚ :=
  match numberAlt s with
  | some (v, []) => some v
  | _ => none

/-- The values of all currency-amount-shaped substrings of a
document, enumerated as prefixes of tails. -/
def shapedSubstringValues (cs : List Char) : List ℚ :=
  cs.tails.flatMap fun t =>
    (List.range (t.length + 1)).filterMap fun n => shapedValue (t.take n)

/-- The claim's fallback for findMoney: the numeric maximum over all
currency-amount-shaped substrings of the whole document. -/
def maxShapedSubstring (cs : List Char) : Option ℚ :=
  maxAmount (shapedSubstringValues cs)

/-- The first amount in the three-line window starting at line i, as
the claim describes the window search. -/
def windowAmountAt (lines : List (List Char)) (i : Nat) : Option ℚ :=
  firstAmountInLines ((lines.drop i).take 3)

/-- The claim's label phase: the first label-matching line index
whose window of up to three lines contains an amount. -/
def labelPhase (labels : List String) (lines : List (List Char)) : Option Nat :=
  (List.range lines.length).find? fun i =>
    labelHit labels (lines.getD i []) && (windowAmountAt lines i).isSome

/-- findMoney exactly as claim C1 words it: the label phase, and on
failure the maximum over all amount-shaped substrings of the whole
document. -/
def findMoneyClaimed (text : String) (labels : List String) : Option ℚ :=
  let lines := linesOf text.toList
  match labelPhase labels lines with
  | some i => windowAmountAt lines i
  | none => maxShapedSubstring text.toList

/-- Claim C1 amended: the same label phase, but the fallback is the
maximum over the amounts found by the left-to-right non-overlapping
global scan, which is what the code computes. -/
def findMoneyAmendedSpec (text : String) (labels : List String) : Option ℚ :=
  let lines := linesOf text.toList
  match labelPhase labels lines with
  | some i => windowAmountAt lines i
  | none => maxAmount (scanAmounts text.toList)

/-- Rate inference exactly as claim C7 words it: supply divided by
quantity whenever both are present and the quotient is finite; in the
rational model the quotient is finite precisely when the quantity is
nonzero. -/
def inferCurrentRateClaimed (a : BillAudit) : Option ℚ :=
  match (inferMonthlyQtyAndUnit a).1, a.totals.supply_charges with
  | some qty, some supply =>
    if qty ≠ 0 then some (supply / (qty : ℚ)) else none
  | _, _ => none

/-- Everything in a BillAudit except the parsed-at timestamp. -/
def auditContent (a : BillAudit) :
    String × Option String × BillingPeriod × Totals × Usage × String × String :=
  (a.utility, a.account_number, a.billing_period, a.totals, a.usage,
    a.meta_confidence, a.notes)

/-- The phrases the extraction engine recognizes, lowercased: the
money label phrases of the four findMoney calls, the usage unit
words, the utility alias stems, and the words of the structural
header fallback. A document avoiding all of them (case-insensitively)
contains no recognizable label phrase. -/
def forbiddenPhrases : List String :=
  ["total amount due", "amount due", "current balance due", "total due",
   "delivery charges", "distribution", "basic service charge",
   "supply charges", "generation", "energy supply", "gas supply",
   "sales tax", "tax", "grt",
   "kwh", "therm", "ccf",
   "con", "southern california edison", "sce", "pge", "pacific gas",
   "national grid", "duke energy", "sdge", "san diego gas",
   "bill", "invoice", "statement"]

/-- No position of the document starts a currency-amount match: the
formal reading of a document containing no currency-amount-shaped
substring. -/
def amountFree (cs : List Char) : Bool :=
  cs.tails.all fun t => (numberAlt t).isNone

/-- None of the recognizable phrases occurs in the document, ignoring
case. -/
def phraseFree (cs : List Char) : Bool :=
  forbiddenPhrases.all fun p => !(containsSeg (lowerStr p) (cs.map Char.toLower))

/-- The hypothesis of claim C5: no recognizable label phrases and no
currency-amount-shaped substrings. -/
def benign (text : String) : Bool :=
  amountFree text.toList && phraseFree text.toList

theorem findSome?_eq_some_imp {α β : Type} {f : α → Option β} {l : List α} {v : β}
    (h : l.findSome? f = some v) : ∃ a ∈ l, f a = some v := by
  induction l with
  | nil => simp [List.findSome?] at h
  | cons a l ih =>
    rw [List.findSome?] at h
    cases hf : f a with
    | some w => rw [hf] at h; exact ⟨a, by simp, by simp [hf, h.symm]⟩
    | none =>
      rw [hf] at h
      obtain ⟨b, hb, hfb⟩ := ih h
      exact ⟨b, by simp [hb], hfb⟩

theorem find?_map_comm {α β : Type} (f : α → β) (p : β → Bool) (l : List α) :
    (l.map f).find? p = (l.find? fun a => p (f a)).map f := by
  induction l with
  | nil => rfl
  | cons a l ih => simp [List.find?]; split <;> simp_all

theorem matchCI_decomp {lit cs rest : List Char} (h : matchCI lit cs = some rest) :
    ∃ pre, cs = pre ++ rest ∧ pre.map Char.toLower = lit := by
  induction lit generalizing cs with
  | nil =>
    refine ⟨[], ?_, rfl⟩
    simpa [matchCI] using h
  | cons l ls ih =>
    cases cs with
    | nil => simp [matchCI] at h
    | cons c cs' =>
      rw [matchCI] at h
      split at h
      case isTrue heq =>
        obtain ⟨pre, hpre, hmap⟩ := ih h
        exact ⟨c :: pre, by simp [hpre], by simp [hmap, eq_of_beq heq]⟩
      case isFalse => exact absurd h (by simp)

theorem matchLit_decomp {lit cs rest : List Char} (h : matchLit lit cs = some rest) :
    cs = lit ++ rest := by
  induction lit generalizing cs with
  | nil => simpa [matchLit] using h
  | cons l ls ih =>
    cases cs with
    | nil => simp [matchLit] at h
    | cons c cs' =>
      rw [matchLit] at h
      split at h
      case isTrue heq => simp [eq_of_beq heq, ih h]
      case isFalse => exact absurd h (by simp)

theorem matchCI_suffix {lit cs rest : List Char} (h : matchCI lit cs = some rest) :
    rest <:+ cs := by
  obtain ⟨pre, hpre, _⟩ := matchCI_decomp h
  exact ⟨pre, hpre.symm⟩

theorem wsPlus_suffix {cs r : List Char} (h : wsPlus cs = some r) : r <:+ cs := by
  cases cs with
  | nil => simp [wsPlus] at h
  | cons c rest =>
    rw [wsPlus] at h
    split at h
    case isTrue =>
      cases h
      exact (List.dropWhile_suffix isWS).trans (List.suffix_cons c rest)
    case isFalse => simp at h

theorem containsSeg_iff {n h : List Char} :
    containsSeg n h = true ↔ ∃ p q, h = p ++ n ++ q := by
  unfold containsSeg
  rw [List.any_eq_true]
  constructor
  · rintro ⟨t, ht, hpref⟩
    obtain ⟨p, hp⟩ := (List.mem_tails t h).mp ht
    obtain ⟨q, hq⟩ := List.isPrefixOf_iff_prefix.mp hpref
    exact ⟨p, q, by rw [← hp, ← hq]; simp⟩
  · rintro ⟨p, q, rfl⟩
    refine ⟨n ++ q, (List.mem_tails _ _).mpr ⟨p, by simp⟩, ?_⟩
    exact List.isPrefixOf_iff_prefix.mpr ⟨q, rfl⟩

theorem takeDrop_append {p : Char → Bool} (cs e : List Char)
    (h : cs.dropWhile p ≠ []) :
    (cs ++ e).takeWhile p = cs.takeWhile p ∧ (cs ++ e).dropWhile p = cs.dropWhile p ++ e := by
  induction cs with
  | nil => simp at h
  | cons c cs ih =>
    by_cases hc : p c
    · rw [List.dropWhile_cons, if_pos hc] at h
      have := ih h
      simp [List.takeWhile_cons, List.dropWhile_cons, hc, this.1, this.2]
    · simp [List.takeWhile_cons, List.dropWhile_cons, hc]

theorem digitSpan_append (cs e : List Char) (h : (digitSpan cs).2 ≠ []) :
    digitSpan (cs ++ e) = ((digitSpan cs).1, (digitSpan cs).2 ++ e) := by
  have := takeDrop_append (p := Char.isDigit) cs e h
  simp [digitSpan, this.1, this.2]

theorem commaGroups_of_head_ne_comma {r : List Char}
    (h : ∀ c, r.head? = some c → ¬ c = ',') : commaGroups r = ([], r) := by
  match r with
  | [] => rfl
  | [a] => rfl
  | [a, b] => rfl
  | [a, b, c] => rfl
  | c0 :: a :: b :: c :: rest =>
    have hc0 : ¬ c0 = ',' := h c0 rfl
    rw [commaGroups]
    simp [hc0]

theorem commaGroups_head_dot (r e : List Char)
    (h : ((commaGroups r).2).head? = some '.') :
    commaGroups (r ++ e) = ((commaGroups r).1, (commaGroups r).2 ++ e) := by
  induction r using commaGroups.induct with
  | case1 c0 a b c rest hcond ds r2 heq ih =>
    rw [commaGroups, if_pos hcond, heq] at h ⊢
    have ih2 := ih (by simpa [heq] using h)
    rw [heq] at ih2
    show commaGroups (c0 :: a :: b :: c :: (rest ++ e)) = _
    rw [commaGroups, if_pos hcond, ih2]
  | case2 c0 a b c rest hcond =>
    rw [commaGroups, if_neg hcond] at h ⊢
    have hdot : (c0 :: a :: b :: c :: rest).head? = some '.' := h
    have hc0 : c0 = '.' := by simpa using hdot
    have : commaGroups ((c0 :: a :: b :: c :: rest) ++ e) = ([], (c0 :: a :: b :: c :: rest) ++ e) := by
      apply commaGroups_of_head_ne_comma
      intro d hd
      simp at hd
      rw [← hd, hc0]
      decide
    simpa using this
  | case3 cs hshape =>
    have heq : commaGroups cs = ([], cs) := by
      unfold commaGroups
      split
      case h_1 c0 a b c rest => exact absurd rfl (hshape c0 a b c rest)
      case h_2 => rfl
    rw [heq] at h ⊢
    have hdot : cs.head? = some '.' := h
    have : commaGroups (cs ++ e) = ([], cs ++ e) := by
      apply commaGroups_of_head_ne_comma
      intro d hd
      cases cs with
      | nil => simp at hdot
      | cons x xs =>
        have hx : x = '.' := by simpa using hdot
        have hdx : x = d := by simpa using hd
        rw [← hdx, hx]
        decide
    simpa using this

theorem dotDD_eq_some {r : List Char} {a b : Char} {rest : List Char}
    (h : dotDD r = some (a, b, rest)) :
    r = '.' :: a :: b :: rest ∧ a.isDigit = true ∧ b.isDigit = true := by
  match r with
  | [] => simp [dotDD] at h
  | [x] => simp [dotDD] at h
  | [x, y] => simp [dotDD] at h
  | c0 :: x :: y :: rs =>
    rw [dotDD] at h
    split at h
    case isTrue hcond =>
      simp only [Option.some.injEq, Prod.mk.injEq] at h
      obtain ⟨ha', hb', hr'⟩ := h
      simp only [Bool.and_eq_true, beq_iff_eq] at hcond
      subst ha'; subst hb'; subst hr'
      exact ⟨by rw [hcond.1.1], hcond.1.2, hcond.2⟩
    case isFalse => simp at h

theorem dotDD_append {r : List Char} {a b : Char} {rest : List Char} (e : List Char)
    (h : dotDD r = some (a, b, rest)) :
    dotDD (r ++ e) = some (a, b, rest ++ e) := by
  obtain ⟨hr, ha, hb⟩ := dotDD_eq_some h
  subst hr
  show dotDD ('.' :: a :: b :: (rest ++ e)) = _
  rw [dotDD]
  simp [ha, hb]

theorem alt1_eq (cs : List Char) :
    alt1 cs =
      (if 1 ≤ (cs.takeWhile Char.isDigit).length ∧ (cs.takeWhile Char.isDigit).length ≤ 3 then
        match dotDD (commaGroups (cs.dropWhile Char.isDigit)).2 with
        | some (a, b, r3) =>
          some (amountVal (cs.takeWhile Char.isDigit ++ (commaGroups (cs.dropWhile Char.isDigit)).1) a b, r3)
        | none => none
      else none) := rfl

theorem alt2_eq (cs : List Char) :
    alt2 cs =
      (if 1 ≤ (cs.takeWhile Char.isDigit).length then
        match dotDD (cs.dropWhile Char.isDigit) with
        | some (a, b, r3) => some (amountVal (cs.takeWhile Char.isDigit) a b, r3)
        | none => none
      else none) := rfl

theorem alt1_append {cs : List Char} {v : ℚ} {r : List Char} (e : List Char)
    (h : alt1 cs = some (v, r)) : alt1 (cs ++ e) = some (v, r ++ e) := by
  rw [alt1_eq] at h
  split at h
  case isFalse => simp at h
  case isTrue hlen =>
    cases hd : dotDD (commaGroups (cs.dropWhile Char.isDigit)).2 with
    | none => rw [hd] at h; simp at h
    | some trip =>
      obtain ⟨a, b, r3⟩ := trip
      rw [hd] at h
      simp only [Option.some.injEq, Prod.mk.injEq] at h
      obtain ⟨hv, hr⟩ := h
      have hshape := dotDD_eq_some hd
      have hdrop_ne : cs.dropWhile Char.isDigit ≠ [] := by
        intro hnil
        rw [hnil] at hd
        simp [commaGroups, dotDD] at hd
      have hds := digitSpan_append cs e (by simpa [digitSpan] using hdrop_ne)
      simp only [digitSpan, Prod.mk.injEq] at hds
      have hcg := commaGroups_head_dot (cs.dropWhile Char.isDigit) e
        (by rw [hshape.1]; rfl)
      have hdd := dotDD_append e hd
      rw [alt1_eq, hds.1, hds.2, hcg]
      simp only
      rw [if_pos hlen, hdd]
      simp [hv, hr]

theorem alt2_append {cs : List Char} {v : ℚ} {r : List Char} (e : List Char)
    (h : alt2 cs = some (v, r)) : alt2 (cs ++ e) = some (v, r ++ e) := by
  rw [alt2_eq] at h
  split at h
  case isFalse => simp at h
  case isTrue hlen =>
    cases hd : dotDD (cs.dropWhile Char.isDigit) with
    | none => rw [hd] at h; simp at h
    | some trip =>
      obtain ⟨a, b, r3⟩ := trip
      rw [hd] at h
      simp only [Option.some.injEq, Prod.mk.injEq] at h
      obtain ⟨hv, hr⟩ := h
      have hshape := dotDD_eq_some hd
      have hdrop_ne : cs.dropWhile Char.isDigit ≠ [] := by
        intro hnil
        rw [hnil] at hd
        simp [dotDD] at hd
      have hds := digitSpan_append cs e (by simpa [digitSpan] using hdrop_ne)
      simp only [digitSpan, Prod.mk.injEq] at hds
      have hdd := dotDD_append e hd
      rw [alt2_eq, hds.1, hds.2, hdd]
      rw [if_pos hlen]
      simp [hv, hr]

theorem alt2_some_dotDD {cs : List Char} {v : ℚ} {r : List Char}
    (h : alt2 cs = some (v, r)) :
    1 ≤ (cs.takeWhile Char.isDigit).length ∧
      ∃ a b, dotDD (cs.dropWhile Char.isDigit) = some (a, b, r) := by
  rw [alt2_eq] at h
  split at h
  case isFalse => simp at h
  case isTrue hlen =>
    cases hd : dotDD (cs.dropWhile Char.isDigit) with
    | none => rw [hd] at h; simp at h
    | some trip =>
      obtain ⟨a, b, r3⟩ := trip
      rw [hd] at h
      simp only [Option.some.injEq, Prod.mk.injEq] at h
      obtain ⟨_, hr⟩ := h
      exact ⟨hlen, a, b, by rw [hr]⟩


theorem alt1_none_append {cs : List Char} {v : ℚ} {r : List Char} (e : List Char)
    (h1 : alt1 cs = none) (h2 : alt2 cs = some (v, r)) :
    alt1 (cs ++ e) = none := by
  obtain ⟨hlen, a, b, hdd⟩ := alt2_some_dotDD h2
  have hdrop := (dotDD_eq_some hdd).1
  have hbig : ¬ ((cs.takeWhile Char.isDigit).length ≤ 3) := by
    intro hle
    have hcg : commaGroups (cs.dropWhile Char.isDigit) = ([], cs.dropWhile Char.isDigit) := by
      apply commaGroups_of_head_ne_comma
      intro c hc
      rw [hdrop] at hc
      simp at hc
      rw [← hc]
      decide
    have halt : alt1 cs = some (amountVal (cs.takeWhile Char.isDigit) a b, r) := by
      rw [alt1_eq, if_pos ⟨hlen, hle⟩]
      simp only [hcg]
      rw [hdd]
      simp
    rw [halt] at h1
    exact Option.noConfusion h1
  have hdrop_ne : cs.dropWhile Char.isDigit ≠ [] := by rw [hdrop]; simp
  have hds := digitSpan_append cs e (by simpa [digitSpan] using hdrop_ne)
  simp only [digitSpan, Prod.mk.injEq] at hds
  rw [alt1_eq, hds.1]
  rw [if_neg (by intro hc; exact hbig hc.2)]

theorem numberAlt_append {cs : List Char} {v : ℚ} {r : List Char} (e : List Char)
    (h : numberAlt cs = some (v, r)) : numberAlt (cs ++ e) = some (v, r ++ e) := by
  rw [numberAlt] at h
  cases h1 : alt1 cs with
  | some pr =>
    obtain ⟨v', r'⟩ := pr
    rw [h1] at h
    simp only [Option.some.injEq, Prod.mk.injEq] at h
    rw [numberAlt, alt1_append e (show alt1 cs = some (v, r) by rw [h1, h.1, h.2])]
  | none =>
    rw [h1] at h
    rw [numberAlt, alt1_none_append e h1 h, alt2_append e h]

theorem mmf_suffix_numberAlt {t : List Char} {v : ℚ} {rest : List Char}
    (h : matchMoneyAtFull t = some (v, rest)) :
    ∃ s, s <:+ t ∧ numberAlt s = some (v, rest) := by
  unfold matchMoneyAtFull at h
  cases t with
  | nil => exact ⟨[], List.suffix_rfl, by simpa using h⟩
  | cons c r =>
    dsimp only at h
    by_cases hc : c == '$'
    · rw [if_pos hc] at h
      exact ⟨r.dropWhile isWS, (List.dropWhile_suffix isWS).trans (List.suffix_cons c r), h⟩
    · rw [if_neg hc] at h
      exact ⟨(c :: r).dropWhile isWS, List.dropWhile_suffix isWS, h⟩

theorem amountFree_suffix_none {cs t : List Char} (hfree : amountFree cs = true)
    (hsuf : t <:+ cs) : numberAlt t = none := by
  have := (List.all_eq_true.mp hfree) t ((List.mem_tails t cs).mpr hsuf)
  simpa using this

theorem mmf_none_of_free {cs t : List Char} (hfree : amountFree cs = true)
    (hsuf : t <:+ cs) : matchMoneyAtFull t = none := by
  cases hm : matchMoneyAtFull t with
  | none => rfl
  | some pr =>
    obtain ⟨v, rest⟩ := pr
    obtain ⟨s, hs, hna⟩ := mmf_suffix_numberAlt hm
    rw [amountFree_suffix_none hfree (hs.trans hsuf)] at hna
    exact Option.noConfusion hna

theorem scanAmountsGo_nil_of_free {root : List Char} (fuel : Nat) {cs : List Char}
    (hfree : amountFree root = true) (hsuf : cs <:+ root) :
    scanAmountsGo fuel cs = [] := by
  induction fuel generalizing cs with
  | zero => rfl
  | succ f ih =>
    cases cs with
    | nil => rfl
    | cons c rest =>
      have hmm := mmf_none_of_free hfree hsuf
      simp only [scanAmountsGo, hmm]
      exact ih ((List.suffix_cons c rest).trans hsuf)

theorem scanAmounts_nil_of_free {cs : List Char} (hfree : amountFree cs = true) :
    scanAmounts cs = [] :=
  scanAmountsGo_nil_of_free cs.length hfree List.suffix_rfl

theorem findFirstAmount_none_of_free {root line : List Char}
    (hfree : amountFree root = true)
    (hseg : ∃ p q, root = p ++ line ++ q) :
    findFirstAmount line = none := by
  cases hf : findFirstAmount line with
  | none => rfl
  | some v =>
    exfalso
    obtain ⟨t, ht, hmt⟩ := findSome?_eq_some_imp hf
    cases hm : matchMoneyAtFull t with
    | none => rw [hm] at hmt; simp at hmt
    | some pr =>
      obtain ⟨v', rest⟩ := pr
      obtain ⟨s, hs, hna⟩ := mmf_suffix_numberAlt hm
      obtain ⟨p, q, hroot⟩ := hseg
      obtain ⟨p2, hp2⟩ := (List.mem_tails t line).mp ht
      obtain ⟨p3, hp3⟩ := hs
      have hsq : (s ++ q) <:+ root := by
        refine ⟨p ++ p2 ++ p3, ?_⟩
        rw [hroot, ← hp2, ← hp3]
        simp
      have hext := numberAlt_append q hna
      rw [amountFree_suffix_none hfree hsq] at hext
      exact Option.noConfusion hext

theorem splitNl_strong (cs : List Char) :
    (∃ q, cs = ((splitNl cs).headD []) ++ q) ∧
      ∀ l ∈ splitNl cs, ∃ p q, cs = p ++ l ++ q := by
  induction cs with
  | nil =>
    refine ⟨⟨[], rfl⟩, ?_⟩
    intro l hl
    simp [splitNl] at hl
    subst hl
    exact ⟨[], [], rfl⟩
  | cons c rest ih =>
    by_cases hc : c == '\n'
    · constructor
      · exact ⟨c :: rest, by simp [splitNl, hc]⟩
      · intro l hl
        simp only [splitNl, hc, if_true] at hl
        rcases List.mem_cons.mp hl with rfl | hmem
        · exact ⟨[], c :: rest, by simp⟩
        · obtain ⟨p, q, hpq⟩ := ih.2 l hmem
          exact ⟨c :: p, q, by simp [hpq]⟩
    · cases hsp : splitNl rest with
      | nil =>
        constructor
        · refine ⟨rest, ?_⟩
          simp [splitNl, hc, hsp]
        · intro l hl
          simp only [splitNl, hc, if_neg, hsp] at hl
          simp at hl
          subst hl
          exact ⟨[], rest, rfl⟩
      | cons l₀ ls =>
        have hpre : ∃ q, rest = l₀ ++ q := by
          have h1 := ih.1
          rw [hsp] at h1
          simpa using h1
        constructor
        · obtain ⟨q, hq⟩ := hpre
          refine ⟨q, ?_⟩
          simp only [splitNl, hc, if_neg, hsp, List.headD_cons]
          simp [hq]
        · intro l hl
          simp only [splitNl, hc, if_neg, hsp] at hl
          rcases List.mem_cons.mp hl with rfl | hmem
          · obtain ⟨q, hq⟩ := hpre
            exact ⟨[], q, by simp [hq]⟩
          · have hmem2 : l ∈ splitNl rest := by
              rw [hsp]; exact List.mem_cons_of_mem _ hmem
            obtain ⟨p, q, hpq⟩ := ih.2 l hmem2
            exact ⟨c :: p, q, by simp [hpq]⟩

theorem trimChars_seg (l : List Char) : ∃ p q, l = p ++ trimChars l ++ q := by
  refine ⟨l.takeWhile isWS, ((l.dropWhile isWS).reverse.takeWhile isWS).reverse, ?_⟩
  unfold trimChars
  conv_lhs => rw [← List.takeWhile_append_dropWhile isWS l]
  rw [List.append_assoc]
  congr 1
  calc l.dropWhile isWS
      = (l.dropWhile isWS).reverse.reverse := by simp
    _ = ((l.dropWhile isWS).reverse.takeWhile isWS
          ++ (l.dropWhile isWS).reverse.dropWhile isWS).reverse := by
        rw [List.takeWhile_append_dropWhile]
    _ = ((l.dropWhile isWS).reverse.dropWhile isWS).reverse
          ++ ((l.dropWhile isWS).reverse.takeWhile isWS).reverse := by
        rw [List.reverse_append]

theorem linesOf_seg {cs l : List Char} (hl : l ∈ linesOf cs) :
    ∃ p q, cs = p ++ l ++ q := by
  unfold linesOf at hl
  have hl2 := List.mem_of_mem_filter hl
  obtain ⟨piece, hpiece, hl3⟩ := List.mem_map.mp hl2
  obtain ⟨p, q, hpq⟩ := (splitNl_strong cs).2 piece hpiece
  obtain ⟨p2, q2, hpq2⟩ := trimChars_seg piece
  rw [hl3] at hpq2
  exact ⟨p ++ p2, q2 ++ q, by rw [hpq, hpq2]; simp⟩

theorem scanFor_some_imp {α : Type} {f : List Char → Option α} {cs : List Char} {v : α}
    (h : scanFor f cs = some v) : ∃ t, t <:+ cs ∧ f t = some v := by
  obtain ⟨t, ht, hf⟩ := findSome?_eq_some_imp h
  exact ⟨t, (List.mem_tails t cs).mp ht, hf⟩

theorem scanForP_some_imp {α : Type} {f : Option Char → List Char → Option α} :
    ∀ {prev : Option Char} {cs : List Char} {v : α},
    scanForP f prev cs = some v → ∃ p t, t <:+ cs ∧ f p t = some v := by
  intro prev cs
  induction cs generalizing prev with
  | nil =>
    intro v h
    rw [scanForP] at h
    exact ⟨prev, [], List.suffix_rfl, h⟩
  | cons c rest ih =>
    intro v h
    rw [scanForP] at h
    cases hf : f prev (c :: rest) with
    | some w =>
      rw [hf] at h
      exact ⟨prev, c :: rest, List.suffix_rfl, by rw [hf]; simpa using h⟩
    | none =>
      rw [hf] at h
      obtain ⟨p, t, ht, hft⟩ := ih h
      exact ⟨p, t, ht.trans (List.suffix_cons c rest), hft⟩

theorem seg_decomp_of_suffix {text s lit rest : List Char}
    (hs : s <:+ text) (hd : s = lit ++ rest) : ∃ p q, text = p ++ lit ++ q := by
  obtain ⟨p, hp⟩ := hs
  exact ⟨p, rest, by rw [← hp, hd]; simp⟩

theorem containsSeg_lower_of_decomp {text lit : List Char}
    (h : ∃ p q, text = p ++ lit ++ q) :
    containsSeg (lit.map Char.toLower) (text.map Char.toLower) = true := by
  obtain ⟨p, q, rfl⟩ := h
  exact containsSeg_iff.mpr ⟨p.map Char.toLower, q.map Char.toLower, by simp⟩

theorem phrase_hit_of_matchCI {text s rest : List Char} {phrase : String}
    (hs : s <:+ text) (hm : matchCI (lowerStr phrase) s = some rest) :
    containsSeg (lowerStr phrase) (text.map Char.toLower) = true := by
  obtain ⟨pre, hpre, hmap⟩ := matchCI_decomp hm
  have hdec := seg_decomp_of_suffix hs hpre
  have := containsSeg_lower_of_decomp hdec
  rwa [hmap] at this

theorem phrase_hit_of_matchLit {text s rest lit : List Char}
    (hs : s <:+ text) (hm : matchLit lit s = some rest) :
    containsSeg (lit.map Char.toLower) (text.map Char.toLower) = true :=
  containsSeg_lower_of_decomp (seg_decomp_of_suffix hs (matchLit_decomp hm))

theorem phraseFree_not {text : List Char} {phrase : String}
    (hfree : phraseFree text = true) (hmem : phrase ∈ forbiddenPhrases) :
    containsSeg (lowerStr phrase) (text.map Char.toLower) = false := by
  have := (List.all_eq_true.mp hfree) phrase hmem
  simpa using this

theorem labelHit_false_of_phraseFree {text line : List Char} {labels : List String}
    (hfree : phraseFree text = true)
    (hseg : ∃ p q, text = p ++ line ++ q)
    (hsub : ∀ lab ∈ labels, ∃ ph ∈ forbiddenPhrases, lowerStr ph = lowerStr lab) :
    labelHit labels line = false := by
  cases hlh : labelHit labels line with
  | false => rfl
  | true =>
    exfalso
    obtain ⟨lab, hlab, hcs⟩ := List.any_eq_true.mp hlh
    obtain ⟨ph, hph, hlow⟩ := hsub lab hlab
    rw [← hlow] at hcs
    obtain ⟨p, q, hdecomp⟩ := containsSeg_iff.mp hcs
    obtain ⟨p0, q0, htext⟩ := hseg
    have hhit : containsSeg (lowerStr ph) (text.map Char.toLower) = true := by
      apply containsSeg_iff.mpr
      exact ⟨p0.map Char.toLower ++ p, q ++ q0.map Char.toLower, by
        rw [htext]
        simp only [List.map_append, hdecomp]
        simp⟩
    rw [phraseFree_not hfree hph] at hhit
    exact Bool.noConfusion hhit

theorem searchLines_none {labels : List String} {lines : List (List Char)}
    (h : ∀ l ∈ lines, labelHit labels l = false) :
    searchLines labels lines = none := by
  induction lines with
  | nil => rfl
  | cons l rest ih =>
    rw [searchLines, if_neg (by simp [h l (List.mem_cons_self l rest)])]
    exact ih fun l' hl' => h l' (List.mem_cons_of_mem _ hl')

theorem findMoney_none {text : String} {labels : List String}
    (hfree : amountFree text.toList = true)
    (hlab : ∀ l ∈ linesOf text.toList, labelHit labels l = false) :
    findMoney text labels = none := by
  unfold findMoney
  dsimp only
  rw [searchLines_none hlab, scanAmounts_nil_of_free hfree]
  cases labels.isEmpty <;> simp [maxAmount]

theorem kwh_none_of_phraseFree {text : List Char} (hfree : phraseFree text = true) :
    scanFor kwhAt text = none := by
  cases hs : scanFor kwhAt text with
  | none => rfl
  | some n =>
    exfalso
    obtain ⟨t, htt, hf⟩ := scanFor_some_imp hs
    dsimp only [kwhAt, digitSpan] at hf
    split at hf
    case isFalse => simp at hf
    case isTrue hlen =>
      cases hm : matchCI (lowerStr "kwh") ((t.dropWhile Char.isDigit).dropWhile isWS) with
      | none => rw [hm] at hf; simp at hf
      | some r2 =>
        have hsuf : (t.dropWhile Char.isDigit).dropWhile isWS <:+ text :=
          (List.dropWhile_suffix isWS).trans ((List.dropWhile_suffix Char.isDigit).trans htt)
        have hhit := phrase_hit_of_matchCI hsuf hm
        rw [phraseFree_not hfree (by decide)] at hhit
        exact Bool.noConfusion hhit

theorem ccf1_none_of_phraseFree {text : List Char} (hfree : phraseFree text = true) :
    scanFor ccf1At text = none := by
  cases hs : scanFor ccf1At text with
  | none => rfl
  | some n =>
    exfalso
    obtain ⟨t, htt, hf⟩ := scanFor_some_imp hs
    simp only [ccf1At, Option.bind_eq_some] at hf
    obtain ⟨r1, h1, r2, h2, r3, h3, r4, h4, r5, h5, r6, h6, r7, h7, _⟩ := hf
    have hsuf : r6 <:+ text :=
      ((wsPlus_suffix h6).trans ((matchCI_suffix h5).trans ((wsPlus_suffix h4).trans
        ((matchCI_suffix h3).trans ((wsPlus_suffix h2).trans
          ((matchCI_suffix h1).trans htt))))))
    have hhit := phrase_hit_of_matchCI hsuf h7
    rw [phraseFree_not hfree (by decide)] at hhit
    exact Bool.noConfusion hhit

theorem ccf2_none_of_phraseFree {text : List Char} (hfree : phraseFree text = true) :
    scanForP ccf2At none text = none := by
  cases hs : scanForP ccf2At none text with
  | none => rfl
  | some n =>
    exfalso
    obtain ⟨p, t, htt, hf⟩ := scanForP_some_imp hs
    dsimp only [ccf2At, digitSpan] at hf
    split at hf
    case isFalse => simp at hf
    case isTrue =>
      split at hf
      case isFalse => simp at hf
      case isTrue =>
        cases hm : matchCI (lowerStr "ccf") ((t.dropWhile Char.isDigit).dropWhile isWS) with
        | none => rw [hm] at hf; simp at hf
        | some r2 =>
          have hsuf : (t.dropWhile Char.isDigit).dropWhile isWS <:+ text :=
            (List.dropWhile_suffix isWS).trans ((List.dropWhile_suffix Char.isDigit).trans htt)
          have hhit := phrase_hit_of_matchCI hsuf hm
          rw [phraseFree_not hfree (by decide)] at hhit
          exact Bool.noConfusion hhit

theorem therms1_none_of_phraseFree {text : List Char} (hfree : phraseFree text = true) :
    scanFor therms1At text = none := by
  cases hs : scanFor therms1At text with
  | none => rfl
  | some n =>
    exfalso
    obtain ⟨t, htt, hf⟩ := scanFor_some_imp hs
    simp only [therms1At, Option.bind_eq_some, digitSpan] at hf
    obtain ⟨r1, h1, r2, h2, r3, h3, r4, h4, r5, h5, r6, h6, hrest⟩ := hf
    split at hrest
    case isFalse => simp at hrest
    case isTrue =>
      rw [Option.map_eq_some'] at hrest
      obtain ⟨r8, h8, _⟩ := hrest
      have hsuf : (r6.dropWhile Char.isDigit).dropWhile isWS <:+ text :=
        (List.dropWhile_suffix isWS).trans ((List.dropWhile_suffix Char.isDigit).trans
          ((wsPlus_suffix h6).trans ((matchCI_suffix h5).trans ((wsPlus_suffix h4).trans
            ((matchCI_suffix h3).trans ((wsPlus_suffix h2).trans
              ((matchCI_suffix h1).trans htt)))))))
      have hhit := phrase_hit_of_matchCI hsuf h8
      rw [phraseFree_not hfree (by decide)] at hhit
      exact Bool.noConfusion hhit

theorem therms2_none_of_phraseFree {text : List Char} (hfree : phraseFree text = true) :
    scanFor therms2At text = none := by
  cases hs : scanFor therms2At text with
  | none => rfl
  | some n =>
    exfalso
    obtain ⟨t, htt, hf⟩ := scanFor_some_imp hs
    simp only [therms2At, Option.bind_eq_some, digitSpan] at hf
    obtain ⟨r1, h1, hrest⟩ := hf
    have hr2suf : r1.dropWhile isWS <:+ text :=
      (List.dropWhile_suffix isWS).trans ((matchCI_suffix h1).trans htt)
    have hfinish : ∀ r3 : List Char, r3 <:+ text →
        (if 1 ≤ ((r3.dropWhile isWS).takeWhile Char.isDigit).length then
          (matchCI (lowerStr "therm")
            (((r3.dropWhile isWS).dropWhile Char.isDigit).dropWhile isWS)).map
            (fun _ => digitsToNat ((r3.dropWhile isWS).takeWhile Char.isDigit))
        else none) = some n → False := by
      intro r3 hr3suf hr
      split at hr
      case isFalse => simp at hr
      case isTrue =>
        rw [Option.map_eq_some'] at hr
        obtain ⟨r8, h8, _⟩ := hr
        have hsuf := (List.dropWhile_suffix isWS).trans
          ((List.dropWhile_suffix Char.isDigit).trans
            ((List.dropWhile_suffix isWS).trans hr3suf))
        have hhit := phrase_hit_of_matchCI hsuf h8
        rw [phraseFree_not hfree (by decide)] at hhit
        exact Bool.noConfusion hhit
    cases hval : r1.dropWhile isWS with
    | nil =>
      rw [hval] at hrest
      exact hfinish [] List.nil_suffix (by simp at hrest)
    | cons c rest =>
      rw [hval] at hrest hr2suf
      by_cases hc : c == ':' || c == '-'
      · refine hfinish rest ((List.suffix_cons c rest).trans hr2suf) ?_
        simpa [hc] using hrest
      · refine hfinish (c :: rest) hr2suf ?_
        simpa [hc] using hrest

theorem conEd_false_of_phraseFree {text : List Char} (hfree : phraseFree text = true) :
    conEdTest text = false := by
  cases hc : conEdTest text with
  | false => rfl
  | true =>
    exfalso
    obtain ⟨t, ht, hftv⟩ := List.any_eq_true.mp hc
    cases hm : matchCI (lowerStr "con") t with
    | none => rw [hm] at hftv; simp at hftv
    | some r =>
      have hhit := phrase_hit_of_matchCI ((List.mem_tails t text).mp ht) hm
      rw [phraseFree_not hfree (by decide)] at hhit
      exact Bool.noConfusion hhit

theorem sce_false_of_phraseFree {text : List Char} (hfree : phraseFree text = true) :
    sceTest text = false := by
  cases hc : sceTest text with
  | false => rfl
  | true =>
    exfalso
    obtain ⟨t, ht, hftv⟩ := List.any_eq_true.mp hc
    have hts := (List.mem_tails t text).mp ht
    rcases Bool.or_eq_true_iff.mp hftv with h1 | h1
    · obtain ⟨r, hr⟩ := Option.isSome_iff_exists.mp h1
      have hhit := phrase_hit_of_matchCI hts hr
      rw [phraseFree_not hfree (by decide)] at hhit
      exact Bool.noConfusion hhit
    · obtain ⟨r, hr⟩ := Option.isSome_iff_exists.mp h1
      have hhit := phrase_hit_of_matchCI hts hr
      rw [phraseFree_not hfree (by decide)] at hhit
      exact Bool.noConfusion hhit

theorem pge_false_of_phraseFree {text : List Char} (hfree : phraseFree text = true) :
    pgeTest text = false := by
  cases hc : pgeTest text with
  | false => rfl
  | true =>
    exfalso
    obtain ⟨t, ht, hftv⟩ := List.any_eq_true.mp hc
    have hts := (List.mem_tails t text).mp ht
    rcases Bool.or_eq_true_iff.mp hftv with h1 | h1
    · cases hm : matchCI (lowerStr "pge") t with
      | none => rw [hm] at h1; simp at h1
      | some r =>
        have hhit := phrase_hit_of_matchCI hts hm
        rw [phraseFree_not hfree (by decide)] at hhit
        exact Bool.noConfusion hhit
    · obtain ⟨r, hr⟩ := Option.isSome_iff_exists.mp h1
      have hhit := phrase_hit_of_matchCI hts hr
      rw [phraseFree_not hfree (by decide)] at hhit
      exact Bool.noConfusion hhit

theorem natGrid_false_of_phraseFree {text : List Char} (hfree : phraseFree text = true) :
    natGridTest text = false := by
  cases hc : natGridTest text with
  | false => rfl
  | true =>
    exfalso
    obtain ⟨t, ht, hftv⟩ := List.any_eq_true.mp hc
    obtain ⟨r, hr⟩ := Option.isSome_iff_exists.mp hftv
    have hhit := phrase_hit_of_matchCI ((List.mem_tails t text).mp ht) hr
    rw [phraseFree_not hfree (by decide)] at hhit
    exact Bool.noConfusion hhit

theorem duke_false_of_phraseFree {text : List Char} (hfree : phraseFree text = true) :
    dukeTest text = false := by
  cases hc : dukeTest text with
  | false => rfl
  | true =>
    exfalso
    obtain ⟨t, ht, hftv⟩ := List.any_eq_true.mp hc
    obtain ⟨r, hr⟩ := Option.isSome_iff_exists.mp hftv
    have hhit := phrase_hit_of_matchCI ((List.mem_tails t text).mp ht) hr
    rw [phraseFree_not hfree (by decide)] at hhit
    exact Bool.noConfusion hhit

theorem sdge_false_of_phraseFree {text : List Char} (hfree : phraseFree text = true) :
    sdgeTest text = false := by
  cases hc : sdgeTest text with
  | false => rfl
  | true =>
    exfalso
    obtain ⟨t, ht, hftv⟩ := List.any_eq_true.mp hc
    have hts := (List.mem_tails t text).mp ht
    rcases Bool.or_eq_true_iff.mp hftv with h1 | h1
    · obtain ⟨r, hr⟩ := Option.isSome_iff_exists.mp h1
      have hhit := phrase_hit_of_matchCI hts hr
      rw [phraseFree_not hfree (by decide)] at hhit
      exact Bool.noConfusion hhit
    · obtain ⟨r, hr⟩ := Option.isSome_iff_exists.mp h1
      have hhit := phrase_hit_of_matchCI hts hr
      rw [phraseFree_not hfree (by decide)] at hhit
      exact Bool.noConfusion hhit

theorem headerTryK_imp {first : Char} {body cap : List Char} :
    ∀ n, headerTryK first body n = some cap →
      ∃ k, headerAttempt first body k = some cap := by
  intro n
  induction n using Nat.strong_induction_on with
  | _ n ih =>
    match n with
    | 0 => intro h; exact absurd h (by simp [headerTryK])
    | 1 => intro h; exact absurd h (by simp [headerTryK])
    | 2 => intro h; exact absurd h (by simp [headerTryK])
    | k + 3 =>
      intro h
      rw [headerTryK] at h
      cases ha : headerAttempt first body (k + 3) with
      | some cap' =>
        rw [ha] at h
        exact ⟨k + 3, by rw [ha]; exact h⟩
      | none =>
        rw [ha] at h
        exact ih (k + 2) (by omega) h

theorem headerAt_none_of_phraseFree {text t : List Char}
    (hfree : phraseFree text = true) (hts : t <:+ text) :
    headerAt t = none := by
  cases hh : headerAt t with
  | none => rfl
  | some name =>
    exfalso
    unfold headerAt at hh
    cases t with
    | nil => simp at hh
    | cons c rest =>
      dsimp only at hh
      split at hh
      case isFalse => simp at hh
      case isTrue =>
        cases htk : headerTryK c rest (min 40 ((rest.takeWhile isClassChar).length)) with
        | none => rw [htk] at hh; simp at hh
        | some cap =>
          obtain ⟨k, hatt⟩ := headerTryK_imp _ htk
          unfold headerAttempt at hatt
          rw [Option.bind_eq_some] at hatt
          obtain ⟨r2, hws, hif⟩ := hatt
          have hr2suf : r2 <:+ text :=
            ((wsPlus_suffix hws).trans ((List.drop_suffix k rest).trans
              ((List.suffix_cons c rest).trans hts)))
          split at hif
          case isFalse => simp at hif
          case isTrue hor =>
            rcases Bool.or_eq_true_iff.mp hor with hor1 | hor3
            · rcases Bool.or_eq_true_iff.mp hor1 with h1 | h2
              · obtain ⟨r3, hr3⟩ := Option.isSome_iff_exists.mp h1
                have hhit := phrase_hit_of_matchLit hr2suf hr3
                have hb : ("Bill".toList).map Char.toLower = lowerStr "bill" := by decide
                rw [hb, phraseFree_not hfree (by decide)] at hhit
                exact Bool.noConfusion hhit
              · obtain ⟨r3, hr3⟩ := Option.isSome_iff_exists.mp h2
                have hhit := phrase_hit_of_matchLit hr2suf hr3
                have hb : ("Invoice".toList).map Char.toLower = lowerStr "invoice" := by decide
                rw [hb, phraseFree_not hfree (by decide)] at hhit
                exact Bool.noConfusion hhit
            · obtain ⟨r3, hr3⟩ := Option.isSome_iff_exists.mp hor3
              have hhit := phrase_hit_of_matchLit hr2suf hr3
              have hb : ("Statement".toList).map Char.toLower = lowerStr "statement" := by decide
              rw [hb, phraseFree_not hfree (by decide)] at hhit
              exact Bool.noConfusion hhit

theorem headerFirst_none_of_phraseFree {text : List Char}
    (hfree : phraseFree text = true) : headerFirst text = none := by
  cases hh : headerFirst text with
  | none => rfl
  | some name =>
    exfalso
    obtain ⟨p, t, hts, hl⟩ := scanForP_some_imp hh
    unfold headerLineStart at hl
    cases p with
    | none => rw [headerAt_none_of_phraseFree hfree hts] at hl; exact Option.noConfusion hl
    | some c =>
      dsimp only at hl
      split at hl
      · rw [headerAt_none_of_phraseFree hfree hts] at hl; exact Option.noConfusion hl
      · exact Option.noConfusion hl

theorem guessUtility_unknown {text : String} (hfree : phraseFree text.toList = true) :
    guessUtility text = "Unknown Utility" := by
  unfold guessUtility
  dsimp only
  rw [conEd_false_of_phraseFree hfree, sce_false_of_phraseFree hfree,
    pge_false_of_phraseFree hfree, natGrid_false_of_phraseFree hfree,
    duke_false_of_phraseFree hfree, sdge_false_of_phraseFree hfree,
    headerFirst_none_of_phraseFree hfree]
  rfl

theorem parseUsage_null {text : String} (hfree : phraseFree text.toList = true) :
    parseUsage text = { gas_therms := none, gas_ccf := none, electricity_kwh := none } := by
  unfold parseUsage
  dsimp only
  rw [therms1_none_of_phraseFree hfree, therms2_none_of_phraseFree hfree,
    ccf1_none_of_phraseFree hfree, ccf2_none_of_phraseFree hfree,
    kwh_none_of_phraseFree hfree]

theorem findMoney_null_of_free {text : String} {labels : List String}
    (hA : amountFree text.toList = true) (hP : phraseFree text.toList = true)
    (hsub : ∀ lab ∈ labels, ∃ ph ∈ forbiddenPhrases, lowerStr ph = lowerStr lab) :
    findMoney text labels = none := by
  apply findMoney_none hA
  intro l hl
  exact labelHit_false_of_phraseFree hP (linesOf_seg hl) hsub

/-- C5: for every input string containing no recognizable label
phrases and no currency-amount-shaped substrings (the decidable
predicate benign, which also covers the empty string), auditFromText
returns, for any clock value, a BillAudit whose monetary fields
(total due, delivery charges, supply charges, taxes) and usage fields
(electricity kWh, gas therms, gas ccf) are all null and whose utility
is the sentinel Unknown Utility. -/
theorem c5_extract_allNull (now text : String) (hb : benign text = true) :
    (auditFromText now text).totals.total_due = none ∧
    (auditFromText now text).totals.delivery_charges = none ∧
    (auditFromText now text).totals.supply_charges = none ∧
    (auditFromText now text).totals.taxes = none ∧
    (auditFromText now text).usage.electricity_kwh = none ∧
    (auditFromText now text).usage.gas_therms = none ∧
    (auditFromText now text).usage.gas_ccf = none ∧
    (auditFromText now text).utility = "Unknown Utility" := by
  unfold benign at hb
  rw [Bool.and_eq_true] at hb
  obtain ⟨hA, hP⟩ := hb
  have husage := parseUsage_null hP
  unfold auditFromText
  dsimp only
  rw [husage]
  refine ⟨?_, ?_, ?_, ?_, rfl, rfl, rfl, guessUtility_unknown hP⟩
  · exact findMoney_null_of_free hA hP (by decide)
  · exact findMoney_null_of_free hA hP (by decide)
  · exact findMoney_null_of_free hA hP (by decide)
  · exact findMoney_null_of_free hA hP (by decide)

/-- C5 witness: the empty document is benign and extraction on it
yields the all-null record with the sentinel utility. -/
theorem c5_extract_allNull_witness :
    benign "" = true ∧
    (auditFromText "2024-01-01T00:00:00.000Z" "").totals.total_due = none ∧
    (auditFromText "2024-01-01T00:00:00.000Z" "").utility = "Unknown Utility" := by
  refine ⟨by decide, ?_, ?_⟩
  · exact (c5_extract_allNull "2024-01-01T00:00:00.000Z" "" (by decide)).1
  · exact (c5_extract_allNull "2024-01-01T00:00:00.000Z" "" (by decide)).2.2.2.2.2.2.2

theorem searchLines_eq_labelPhase (labels : List String) :
    ∀ lines, searchLines labels lines =
      match labelPhase labels lines with
      | some i => windowAmountAt lines i
      | none => none := by
  intro lines
  induction lines with
  | nil => rfl
  | cons l rest ih =>
    have hpred : (fun i => labelHit labels ((l :: rest).getD (i + 1) [])
        && (windowAmountAt (l :: rest) (i + 1)).isSome)
        = (fun i => labelHit labels (rest.getD i []) && (windowAmountAt rest i).isSome) :=
      funext fun i => rfl
    unfold labelPhase
    rw [List.length_cons, List.range_succ_eq_map]
    by_cases h0 : labelHit labels l = true
    · cases hw : firstAmountInLines ((l :: rest).take 3) with
      | some v =>
        rw [List.find?_cons_of_pos _ (by
          show (labelHit labels ((l :: rest).getD 0 []) && (windowAmountAt (l :: rest) 0).isSome) = true
          have : windowAmountAt (l :: rest) 0 = some v := hw
          simp [h0, this])]
        rw [searchLines, if_pos h0, hw]
        exact hw.symm
      | none =>
        rw [List.find?_cons_of_neg _ (by
          show ¬ (labelHit labels ((l :: rest).getD 0 []) && (windowAmountAt (l :: rest) 0).isSome) = true
          have : windowAmountAt (l :: rest) 0 = none := hw
          simp [this])]
        rw [find?_map_comm, hpred]
        rw [searchLines, if_pos h0, hw, ih]
        unfold labelPhase
        cases hlp : (List.range rest.length).find?
            (fun i => labelHit labels (rest.getD i []) && (windowAmountAt rest i).isSome) with
        | none => rfl
        | some i => rfl
    · rw [List.find?_cons_of_neg _ (by
        show ¬ (labelHit labels ((l :: rest).getD 0 []) && (windowAmountAt (l :: rest) 0).isSome) = true
        simp [h0])]
      rw [find?_map_comm, hpred]
      rw [searchLines, if_neg h0, ih]
      unfold labelPhase
      cases hlp : (List.range rest.length).find?
          (fun i => labelHit labels (rest.getD i []) && (windowAmountAt rest i).isSome) with
      | none => rfl
      | some i => rfl

/-- C1 amended: for every text and non-empty label list, findMoney
equals the claimed description with the fallback replaced by the
maximum over the non-overlapping global scan. -/
theorem c1_findMoney_amended (text : String) (labels : List String)
    (hne : labels ≠ []) :
    findMoney text labels = findMoneyAmendedSpec text labels := by
  unfold findMoney findMoneyAmendedSpec
  dsimp only
  rw [searchLines_eq_labelPhase labels (linesOf text.toList)]
  have hempty : labels.isEmpty = false := by
    cases labels with
    | nil => exact absurd rfl hne
    | cons a l => rfl
  rw [hempty]
  simp only [Bool.false_eq_true, if_false]
  cases hlp : labelPhase labels (linesOf text.toList) with
  | none => rfl
  | some i =>
    have hpred := List.find?_some hlp
    rw [Bool.and_eq_true] at hpred
    obtain ⟨v, hv⟩ := Option.isSome_iff_exists.mp hpred.2
    dsimp only
    rw [hv]

unseal Rat.add Rat.sub Rat.mul Rat.inv in
/-- C1 witness: a concrete run of the amended equivalence, on a text
whose label window contains an amount. -/
theorem c1_findMoney_amended_witness :
    (["total due", "tax"] : List String) ≠ [] ∧
    findMoney "Total due\n$ 1,284.50\nSales tax 12.00" ["total due", "tax"]
      = findMoneyAmendedSpec "Total due\n$ 1,284.50\nSales tax 12.00" ["total due", "tax"] ∧
    findMoney "Total due\n$ 1,284.50\nSales tax 12.00" ["total due", "tax"] = some (128450 / 100) :=
  ⟨by decide, c1_findMoney_amended _ _ (by decide), by decide⟩

unseal Rat.add Rat.sub Rat.mul Rat.inv in
/-- C1 counterexample: on the document 12.345.67 with a label list
that matches no line, the code returns 12.34 (the global scan finds
the non-overlapping matches 12.34 and 5.67), while the claim as
stated returns the maximum over all currency-amount-shaped
substrings, which includes the overlapping substring 345.67.
The unseal makes the rational arithmetic reducible for decide. -/
theorem c1_findMoney_claim_false :
    findMoney "12.345.67" ["x"] = some (1234 / 100) ∧
    findMoneyClaimed "12.345.67" ["x"] = some (34567 / 100) ∧
    findMoney "12.345.67" ["x"] ≠ findMoneyClaimed "12.345.67" ["x"] := by
  refine ⟨by decide, by decide, by decide⟩

theorem buildSavings_offer_none_nulls (qty : Option ℚ) (cur : Option JsNum) :
    (buildSavings qty cur none).monthlySavings = none ∧
    (buildSavings qty cur none).annualSavings = none ∧
    (buildSavings qty cur none).term2 = none ∧
    (buildSavings qty cur none).term3 = none ∧
    (buildSavings qty cur none).term4 = none ∧
    (buildSavings qty cur none).term5 = none := by
  have hguard : (optTruthy qty && cur.isSome && (none : Option JsNum).isSome) = false := by
    simp
  unfold buildSavings
  rw [hguard]
  simp

/-- C2: for every quantity and pair of rate inputs, if any of the
three is missing (null) then every derived monetary field of
buildSavings (monthlySavings, annualSavings and all four termSavings
entries) is null, never zero, and the result is the distinguished
insufficient-data shape (the branch whose object carries unit: null);
moreover null is an unambiguous indicator: a call with a truthy
quantity and two non-null rates never produces a null monthlySavings,
so null cannot be confused with a computed zero. -/
theorem c2_insufficient_null :
    (∀ (qty : Option ℚ) (cur off : Option JsNum),
      qty = none ∨ cur = none ∨ off = none →
        (buildSavings qty cur off).monthlySavings = none ∧
        (buildSavings qty cur off).annualSavings = none ∧
        (buildSavings qty cur off).term2 = none ∧
        (buildSavings qty cur off).term3 = none ∧
        (buildSavings qty cur off).term4 = none ∧
        (buildSavings qty cur off).term5 = none ∧
        (buildSavings qty cur off).unitNull = true) ∧
    (∀ (qty : Option ℚ) (cur off : Option JsNum),
      optTruthy qty = true → cur ≠ none → off ≠ none →
        (buildSavings qty cur off).monthlySavings ≠ none) := by
  constructor
  · intro qty cur off h
    have hguard : (optTruthy qty && cur.isSome && off.isSome) = false := by
      rcases h with rfl | rfl | rfl <;> simp [optTruthy]
    unfold buildSavings
    rw [hguard]
    simp
  · intro qty cur off hq hc ho
    have hguard : (optTruthy qty && cur.isSome && off.isSome) = true := by
      simp [hq, Option.isSome_iff_ne_none.mpr hc, Option.isSome_iff_ne_none.mpr ho]
    unfold buildSavings
    rw [hguard]
    simp

/-- C2 witness: a missing quantity yields a null monthly savings,
and fully supplied inputs never do. -/
theorem c2_insufficient_null_witness :
    (buildSavings none (some (JsNum.num 2)) (some (JsNum.num 1))).monthlySavings = none ∧
    (buildSavings (some 5) (some (JsNum.num 2)) (some (JsNum.num 1))).monthlySavings ≠ none :=
  ⟨(c2_insufficient_null.1 none (some (JsNum.num 2)) (some (JsNum.num 1)) (Or.inl rfl)).1,
   c2_insufficient_null.2 (some 5) (some (JsNum.num 2)) (some (JsNum.num 1))
     (by decide) (by decide) (by decide)⟩

unseal Rat.add Rat.sub Rat.mul Rat.inv in
/-- C3 counterexample: buildSavings performs no rounding at the point
of computation: with quantity 1, current rate 0.005 and offer rate 0
the monthly savings output is exactly 0.005, which is not a whole
number of cents, so no rounding to two decimal places happened. -/
theorem c3_rounding_claim_false :
    (buildSavings (some 1) (some (JsNum.num (5 / 1000))) (some (JsNum.num 0))).monthlySavings
      = some (JsNum.num (5 / 1000)) ∧
    ¬ ∃ k : ℤ, ((5 : ℚ) / 1000) = (k : ℚ) / 100 := by
  constructor
  · decide
  · rintro ⟨k, hk⟩
    have h1 : (k : ℚ) = 1 / 2 := by
      field_simp at hk
      linarith
    have h2 : ((2 * k : ℤ) : ℚ) = 1 := by push_cast; linarith
    have h3 : (2 * k : ℤ) = 1 := by exact_mod_cast h2
    omega

unseal Rat.add Rat.sub Rat.mul Rat.inv in
/-- C3 amended: the savings outputs are the exact, unrounded products
of the inputs; and the claimed scenario holds exactly: on the input
text Total Gas Use 122 therms with current rate 1.20 and offer rate
0.69, the selected unit is therms, the monthly quantity is 122, and
the outputs are exactly 62.22 monthly, 746.64 annually and 2239.92
over the three-year term. -/
theorem c3_exact_values_and_scenario :
    (∀ (q c o : ℚ), q ≠ 0 →
      (buildSavings (some q) (some (JsNum.num c)) (some (JsNum.num o))).monthlySavings
          = some (JsNum.num ((c - o) * q)) ∧
      (buildSavings (some q) (some (JsNum.num c)) (some (JsNum.num o))).annualSavings
          = some (JsNum.num ((c - o) * q * 12)) ∧
      (buildSavings (some q) (some (JsNum.num c)) (some (JsNum.num o))).term3
          = some (JsNum.num ((c - o) * q * 12 * 3))) ∧
    (inferMonthlyQtyAndUnit (auditFromText "t" "Total Gas Use 122 therms")
        = (some 122, some "therms") ∧
      (buildSavings
        (((inferMonthlyQtyAndUnit (auditFromText "t" "Total Gas Use 122 therms")).1).map
          (fun n => (n : ℚ)))
        (some (JsNum.num (12 / 10))) (some (JsNum.num (69 / 100)))).monthlySavings
          = some (JsNum.num (6222 / 100)) ∧
      (buildSavings
        (((inferMonthlyQtyAndUnit (auditFromText "t" "Total Gas Use 122 therms")).1).map
          (fun n => (n : ℚ)))
        (some (JsNum.num (12 / 10))) (some (JsNum.num (69 / 100)))).annualSavings
          = some (JsNum.num (74664 / 100)) ∧
      (buildSavings
        (((inferMonthlyQtyAndUnit (auditFromText "t" "Total Gas Use 122 therms")).1).map
          (fun n => (n : ℚ)))
        (some (JsNum.num (12 / 10))) (some (JsNum.num (69 / 100)))).term3
          = some (JsNum.num (223992 / 100))) := by
  constructor
  · intro q c o hq
    have hguard : (optTruthy (some q) && (some (JsNum.num c)).isSome
        && (some (JsNum.num o)).isSome) = true := by
      simp [optTruthy, hq]
    unfold buildSavings
    rw [hguard]
    simp [jsSub, jsMul]
  · refine ⟨by decide, by decide, by decide, by decide⟩

/-- C3 witness for the exact-arithmetic part: the outputs at quantity
1 and integer rates are the stated exact products. -/
theorem c3_exact_values_witness :
    (buildSavings (some 1) (some (JsNum.num 2)) (some (JsNum.num 1))).monthlySavings
      = some (JsNum.num ((2 - 1) * 1)) :=
  (c3_exact_values_and_scenario.1 1 2 1 (by decide)).1

unseal Rat.add Rat.sub Rat.mul Rat.inv in
/-- C4: the code, contrary to the claim, coerces a digit-free rate
override such as abc to the number 0 (the sanitizer leaves an empty
string and Number of the empty string is 0), and parses 1.2.3 to NaN,
which passes the not-equal-null guard of buildSavings and propagates
into monthlySavings and into the offerRate field of the output. -/
theorem c4_rate_override_bug :
    parseRateOverride (some "abc") = some (JsNum.num 0) ∧
    parseRateOverride (some "1.2.3") = some JsNum.nan ∧
    (buildSavings (some 10) (some (JsNum.num 2)) (some JsNum.nan)).monthlySavings
      = some JsNum.nan ∧
    (buildSavings (some 10) (some (JsNum.num 2)) (some JsNum.nan)).offerRate = JsNum.nan := by
  refine ⟨by decide, by decide, by decide, by decide⟩

/-- C6: the unit and quantity selection follows the fixed preference
order electricity kWh, then gas therms, then gas ccf: it returns the
first non-null quantity in that order with its own unit, never mixes
commodities (a returned unit always comes with that commodity's
quantity, the higher-preference fields being null), and returns a
null quantity and null unit exactly when all three usage fields are
null. -/
theorem c6_unit_preference (a : BillAudit) :
    (∀ q, a.usage.electricity_kwh = some q →
      inferMonthlyQtyAndUnit a = (some q, some "kWh")) ∧
    (∀ q, a.usage.electricity_kwh = none → a.usage.gas_therms = some q →
      inferMonthlyQtyAndUnit a = (some q, some "therms")) ∧
    (∀ q, a.usage.electricity_kwh = none → a.usage.gas_therms = none →
      a.usage.gas_ccf = some q → inferMonthlyQtyAndUnit a = (some q, some "ccf")) ∧
    (a.usage.electricity_kwh = none → a.usage.gas_therms = none →
      a.usage.gas_ccf = none → inferMonthlyQtyAndUnit a = (none, none)) ∧
    (inferMonthlyQtyAndUnit a = (none, none) →
      a.usage.electricity_kwh = none ∧ a.usage.gas_therms = none ∧
        a.usage.gas_ccf = none) ∧
    (∀ q u, inferMonthlyQtyAndUnit a = (some q, some u) →
      (u = "kWh" ∧ a.usage.electricity_kwh = some q) ∨
      (u = "therms" ∧ a.usage.gas_therms = some q ∧ a.usage.electricity_kwh = none) ∨
      (u = "ccf" ∧ a.usage.gas_ccf = some q ∧ a.usage.electricity_kwh = none ∧
        a.usage.gas_therms = none)) := by
  rcases he : a.usage.electricity_kwh with _ | q1 <;>
    rcases ht : a.usage.gas_therms with _ | q2 <;>
      rcases hc : a.usage.gas_ccf with _ | q3 <;>
        simp [inferMonthlyQtyAndUnit, he, ht, hc]

/-- C6 witness: on an audit with only a therms quantity, the selected
pair is that quantity with the therms unit. -/
theorem c6_unit_preference_witness :
    inferMonthlyQtyAndUnit
      ⟨"X", none, ⟨none, none⟩, ⟨none, none, none, none⟩,
        ⟨some 122, none, none⟩, "t", "c", "n"⟩
      = (some 122, some "therms") :=
  (c6_unit_preference _).2.1 122 rfl rfl

/-- C7 amended: the current rate is inferred as supply charges over
quantity exactly when both are present and truthy (nonzero) — a
present-but-zero value disables the inference — and the offer rate is
never inferred or defaulted: an absent or empty offer override parses
to null, and a null offer rate makes every derived monetary field of
the savings computation null. -/
theorem c7_rate_policy :
    (∀ (a : BillAudit) (q : Nat) (s : ℚ),
      (inferMonthlyQtyAndUnit a).1 = some q → a.totals.supply_charges = some s →
      q ≠ 0 → s ≠ 0 → inferCurrentRate a = some (s / q)) ∧
    (∀ a : BillAudit,
      (inferMonthlyQtyAndUnit a).1 = none ∨ (inferMonthlyQtyAndUnit a).1 = some 0 ∨
        a.totals.supply_charges = none ∨ a.totals.supply_charges = some 0 →
      inferCurrentRate a = none) ∧
    (parseRateOverride none = none ∧ parseRateOverride (some "") = none) ∧
    (∀ (qty : Option ℚ) (cur : Option JsNum),
      (buildSavings qty cur (parseRateOverride none)).monthlySavings = none ∧
      (buildSavings qty cur (parseRateOverride none)).annualSavings = none ∧
      (buildSavings qty cur (parseRateOverride none)).term2 = none ∧
      (buildSavings qty cur (parseRateOverride none)).term3 = none ∧
      (buildSavings qty cur (parseRateOverride none)).term4 = none ∧
      (buildSavings qty cur (parseRateOverride none)).term5 = none) := by
  refine ⟨?_, ?_, ⟨rfl, rfl⟩, ?_⟩
  · intro a q s hq hs hq0 hs0
    unfold inferCurrentRate
    rw [hq, hs]
    simp [hq0, hs0]
  · intro a h
    unfold inferCurrentRate
    rcases h with h | h | h | h <;>
      rw [h] <;>
      (cases hq : (inferMonthlyQtyAndUnit a).1 <;>
        cases hs : a.totals.supply_charges <;> simp_all)
  · intro qty cur
    exact buildSavings_offer_none_nulls qty cur

/-- C7 witness: on an audit with 122 therms and supply charges 5 the
inferred rate is 5 over 122, and a missing offer override yields the
all-null savings. -/
theorem c7_rate_policy_witness :
    inferCurrentRate
      ⟨"X", none, ⟨none, none⟩, ⟨none, none, some 5, none⟩,
        ⟨some 122, none, none⟩, "t", "c", "n"⟩
      = some (5 / 122) :=
  c7_rate_policy.1 _ 122 5 rfl rfl (by decide) (by decide)

unseal Rat.add Rat.sub Rat.mul Rat.inv in
/-- C7 counterexample: with a present quantity of 412 kWh and present
supply charges of exactly 0, the claim as stated (inference happens
whenever both are present with a finite quotient) gives rate 0, but
the code's truthiness guard returns null. -/
theorem c7_claim_false :
    inferCurrentRate
      ⟨"X", none, ⟨none, none⟩, ⟨none, none, some 0, none⟩,
        ⟨none, none, some 412⟩, "t", "c", "n"⟩ = none ∧
    inferCurrentRateClaimed
      ⟨"X", none, ⟨none, none⟩, ⟨none, none, some 0, none⟩,
        ⟨none, none, some 412⟩, "t", "c", "n"⟩ = some 0 := by
  refine ⟨by decide, by decide⟩

/-- C9 amended: extraction depends on nothing but the input text in
every content field: for any two clock readings the two audits agree
on utility, account number, billing period, totals, usage, confidence
and notes (everything except the parsed-at timestamp). -/
theorem c9_extraction_deterministic (now1 now2 text : String) :
    auditContent (auditFromText now1 text) = auditContent (auditFromText now2 text) := rfl

/-- C9 counterexample: two invocations of extraction on the same text
at different clock readings produce records that are not identical
(they differ in the parsed-at metadata), so extraction does not
depend on the input text alone. -/
theorem c9_claim_false :
    auditFromText "2024-01-01T00:00:00.000Z" ""
      ≠ auditFromText "2024-01-02T00:00:00.000Z" "" := by
  decide

/-- C10: rate inference can never produce a non-finite number: it
returns null whenever the selected monthly quantity or the supply
charges are missing or zero (the division is never performed there),
and any returned rate is the well-defined quotient of a nonzero
supply by a nonzero quantity. -/
theorem c10_inference_no_nonfinite (a : BillAudit) :
    ((inferMonthlyQtyAndUnit a).1 = none ∨ (inferMonthlyQtyAndUnit a).1 = some 0 ∨
      a.totals.supply_charges = none ∨ a.totals.supply_charges = some 0 →
      inferCurrentRate a = none) ∧
    (∀ r, inferCurrentRate a = some r →
      ∃ q s, (inferMonthlyQtyAndUnit a).1 = some q ∧ q ≠ 0 ∧
        a.totals.supply_charges = some s ∧ s ≠ 0 ∧ r = s / q) := by
  constructor
  · intro h
    unfold inferCurrentRate
    rcases h with h | h | h | h <;>
      rw [h] <;>
      (cases hq : (inferMonthlyQtyAndUnit a).1 <;>
        cases hs : a.totals.supply_charges <;> simp_all)
  · intro r hr
    unfold inferCurrentRate at hr
    cases hq : (inferMonthlyQtyAndUnit a).1 with
    | none => rw [hq] at hr; simp at hr
    | some q =>
      cases hs : a.totals.supply_charges with
      | none => rw [hq, hs] at hr; simp at hr
      | some s =>
        rw [hq, hs] at hr
        dsimp only at hr
        split at hr
        case isTrue hcond =>
          simp only [Option.some.injEq] at hr
          exact ⟨q, s, rfl, hcond.1, rfl, hcond.2, hr.symm⟩
        case isFalse => simp at hr

/-- C10 witness: a missing quantity makes the inference return null
instead of dividing. -/
theorem c10_inference_no_nonfinite_witness :
    inferCurrentRate
      ⟨"X", none, ⟨none, none⟩, ⟨none, none, some 5, none⟩,
        ⟨none, none, none⟩, "t", "c", "n"⟩ = none :=
  (c10_inference_no_nonfinite _).1 (Or.inl rfl)

/-- C8 amended: in the parseBillText usage extraction the derived
value ccf times conversion factor, rounded to two decimals, is used
exactly when the directly matched therms value is falsy (absent or
zero) and both the ccf and the conversion factor are truthy (present
and nonzero): a nonzero direct match takes priority, a matched-but-
zero direct value is overridden by the derivation, and a missing or
zero ccf or conversion factor disables the derivation. -/
theorem c8_therms_fallback :
    (∀ (text : String) (c v : ℚ),
      ((parseBillComponents text).2.2 = none ∨ (parseBillComponents text).2.2 = some 0) →
      (parseBillComponents text).1 = some c → c ≠ 0 →
      (parseBillComponents text).2.1 = some v → v ≠ 0 →
      parseBillUsageTherms text = some (round2 (c * v))) ∧
    (∀ (text : String) (d : ℚ), (parseBillComponents text).2.2 = some d → d ≠ 0 →
      parseBillUsageTherms text = some d) ∧
    (∀ text : String,
      ((parseBillComponents text).1 = none ∨ (parseBillComponents text).1 = some 0 ∨
        (parseBillComponents text).2.1 = none ∨ (parseBillComponents text).2.1 = some 0) →
      parseBillUsageTherms text = (parseBillComponents text).2.2) := by
  refine ⟨?_, ?_, ?_⟩
  · intro text c v hd hc hc0 hv hv0
    unfold parseBillUsageTherms
    rcases hd with hd | hd <;> simp [hd, hc, hv, optTruthy, hc0, hv0]
  · intro text d hd hd0
    unfold parseBillUsageTherms
    simp [hd, optTruthy, hd0]
  · intro text h
    unfold parseBillUsageTherms
    rcases h with h | h | h | h <;> simp [h, optTruthy]

unseal Rat.add Rat.sub Rat.mul Rat.inv in
/-- C8 witness: with ccf 119 and conversion factor 1.026 matched and
no direct therms match, the reported therms is the rounded product. -/
theorem c8_therms_fallback_witness :
    parseBillUsageTherms "Total usage in ccf 119\nTherm conversion factor 1.026"
      = some (round2 (119 * (1026 / 1000))) :=
  c8_therms_fallback.1 "Total usage in ccf 119\nTherm conversion factor 1.026"
    119 (1026 / 1000) (Or.inl (by decide)) (by decide) (by decide)
    (by decide) (by decide)

unseal Rat.add Rat.sub Rat.mul Rat.inv in
/-- C8 counterexample: on a bill carrying Total usage in ccf 119, a
conversion factor 1.026 and a directly matching Total Gas Use 0
therms, the therms pattern does match (with value 0), yet the code
reports the derived 122.09 rather than the matched value; and on a
bill whose ccf is matched as 0 with a conversion factor present, the
derivation is not used even though both factors are matched. -/
theorem c8_claim_false :
    (parseBillComponents
      "Total usage in ccf 119\nTherm conversion factor 1.026\nTotal Gas Use 0 therms").2.2
        = some 0 ∧
    parseBillUsageTherms
      "Total usage in ccf 119\nTherm conversion factor 1.026\nTotal Gas Use 0 therms"
        = some (12209 / 100) ∧
    (parseBillComponents "Total usage in ccf 0\nTherm conversion factor 1.026").1 = some 0 ∧
    (parseBillComponents "Total usage in ccf 0\nTherm conversion factor 1.026").2.1
        = some (1026 / 1000) ∧
    parseBillUsageTherms "Total usage in ccf 0\nTherm conversion factor 1.026" = none := by
  refine ⟨by decide, by decide, by decide, by decide, by decide⟩

end Wattly
